import Mathlib

/-!
# Teardown of a compose project (`pkg/composer/down.go`)

A shallow embedding of `Composer.Down`, `Composer.downNetwork`,
`Composer.downVolume` and `Composer.downService`.

The Go methods call four collaborators that live outside `down.go`
(`serviceparser.Parse`, `c.NetworkExists`, `c.VolumeExists`, `c.runNerdctlCmd`)
and the logger.  They are modelled by explicit state passing: the state is the
trace of everything the teardown has done so far, each collaborator call being
recorded together with the answer it got.  The answers come from an `Env` of
oracles; an oracle sees the sequence of collaborator calls made before it, so
that a runtime whose answers change over time (a network that exists before its
removal and not after) is covered.

Go maps (`project.Networks`, `project.Volumes`) are association lists; `range`
over a map visits the keys in the order of the list, so that every iteration
order is the order of some list.  `context.Context` is only handed through to
the command executor and is left out.
-/

set_option linter.dupNamespace false

namespace Composer

/-! ## Data model -/

/-- The Go `error` values that `Down` can return.  The two `invalid…` errors are
the ones built by `errors.Errorf` in `downNetwork` and `downVolume`; every other
error is the error value handed back by a collaborator. -/
inductive Error where
  | invalidNetworkName (shortName : String)
  | invalidVolumeName (shortName : String)
  | collaborator (msg : String)
  deriving DecidableEq, Repr

/-- Type `compose.External`: only the field `External` is read. -/
structure External where
  External : Bool
  deriving DecidableEq, Repr

/-- Type `compose.NetworkConfig`: `Name` is the resolved full name. -/
structure NetworkConfig where
  Name : String
  External : External
  deriving DecidableEq, Repr

/-- Type `compose.VolumeConfig`: `Name` is the resolved full name. -/
structure VolumeConfig where
  Name : String
  External : External
  deriving DecidableEq, Repr

/-- Type `compose.ServiceConfig`.  `down.go` reads none of its fields, it only
hands the value to `serviceparser.Parse`. -/
structure ServiceConfig where
  Name : String
  deriving DecidableEq, Repr

/-- Type `serviceparser.Container`: only `Name` is read. -/
structure Container where
  Name : String
  deriving DecidableEq, Repr

/-- Type `serviceparser.Service`, the result of expanding one service. -/
structure Service where
  Containers : List Container
  deriving DecidableEq, Repr

/-- Type `compose.Project`, with the fields that `Down` knows about. -/
structure Project where
  Name : String
  WorkingDir : String
  Services : List ServiceConfig
  Networks : List (String × NetworkConfig)
  Volumes : List (String × VolumeConfig)
  ComposeFiles : List String
  deriving DecidableEq, Repr

/-- Type `DownOptions`. -/
structure DownOptions where
  RemoveVolumes : Bool
  deriving DecidableEq, Repr

/-- The answer of a collaborator that returns `(value, error)`. -/
inductive Answer (α : Type) where
  | ok (value : α)
  | error (msg : String)
  deriving DecidableEq, Repr

/-- A collaborator call, without the answer. -/
inductive Call where
  | Parse (svc : ServiceConfig)
  | NetworkExists (fullName : String)
  | VolumeExists (fullName : String)
  | runNerdctlCmd (args : List String)
  deriving DecidableEq, Repr

/-- One observable step of the teardown: a collaborator call with its answer, or
a line written to the logger. -/
inductive Event where
  | Parse (svc : ServiceConfig) (res : Answer Service)
  | NetworkExists (fullName : String) (res : Answer Bool)
  | VolumeExists (fullName : String) (res : Answer Bool)
  | runNerdctlCmd (args : List String) (res : Option String)
  | Warnf (format : String) (unknown : List String)
  | Infof (format : String) (arg : String)
  | Warn (err : Error)
  deriving DecidableEq, Repr

abbrev Trace := List Event

/-- The collaborator call an event records, if it is one. -/
def Event.toCall : Event → Option Call
  | .Parse svc _ => some (.Parse svc)
  | .NetworkExists n _ => some (.NetworkExists n)
  | .VolumeExists n _ => some (.VolumeExists n)
  | .runNerdctlCmd args _ => some (.runNerdctlCmd args)
  | .Warnf _ _ => none
  | .Infof _ _ => none
  | .Warn _ => none

/-- The sequence of collaborator calls of a trace. -/
def calls (t : Trace) : List Call := t.filterMap Event.toCall

/-- The collaborators of `down.go`.  Each one answers from the sequence of
collaborator calls made before it and from its arguments. -/
structure Env where
  UnknownNonEmptyFields : Project → List String
  Parse : List Call → Project → ServiceConfig → Answer Service
  NetworkExists : List Call → String → Answer Bool
  VolumeExists : List Call → String → Answer Bool
  runNerdctlCmd : List Call → List String → Option String

/-! ## The code of `down.go` -/

/-- The body of the loop `for _, container := range ps.Containers` of
`downService`, over the rest of the containers. -/
def removeContainers (env : Env) (removeAnonVolumes : Bool) :
    List Container → Trace → Trace
  | [], t => t
  | container :: rest, t =>
    let t := t ++ [Event.Infof "Removing container %s" container.Name]
    let args := ["rm", "-f"]
    let args := if removeAnonVolumes then args ++ ["-v"] else args
    let args := args ++ [container.Name]
    let res := env.runNerdctlCmd (calls t) args
    let t := t ++ [Event.runNerdctlCmd args res]
    let t := match res with
      | some err => t ++ [Event.Warn (Error.collaborator err)]
      | none => t
    removeContainers env removeAnonVolumes rest t

/-- Method `Composer.downService`. -/
def downService (env : Env) (project : Project) (svc : ServiceConfig)
    (removeAnonVolumes : Bool) (t : Trace) : Option Error × Trace :=
  let res := env.Parse (calls t) project svc
  let t := t ++ [Event.Parse svc res]
  match res with
  | .error err => (some (Error.collaborator err), t)
  | .ok ps => (none, removeContainers env removeAnonVolumes ps.Containers t)

/-- Method `Composer.downNetwork`. -/
def downNetwork (env : Env) (project : Project) (shortName : String)
    (t : Trace) : Option Error × Trace :=
  match project.Networks.lookup shortName with
  | none => (some (Error.invalidNetworkName shortName), t)
  | some net =>
    if net.External.External then
      (none, t)
    else
      let fullName := net.Name
      let res := env.NetworkExists (calls t) fullName
      let t := t ++ [Event.NetworkExists fullName res]
      match res with
      | .error err => (some (Error.collaborator err), t)
      | .ok netExists =>
        if netExists then
          let t := t ++ [Event.Infof "Removing network %s" fullName]
          let res := env.runNerdctlCmd (calls t) ["network", "rm", fullName]
          let t := t ++ [Event.runNerdctlCmd ["network", "rm", fullName] res]
          match res with
          | some err => (none, t ++ [Event.Warn (Error.collaborator err)])
          | none => (none, t)
        else
          (none, t)

/-- Method `Composer.downVolume`. -/
def downVolume (env : Env) (project : Project) (shortName : String)
    (t : Trace) : Option Error × Trace :=
  match project.Volumes.lookup shortName with
  | none => (some (Error.invalidVolumeName shortName), t)
  | some vol =>
    if vol.External.External then
      (none, t)
    else
      let fullName := vol.Name
      let res := env.VolumeExists (calls t) fullName
      let t := t ++ [Event.VolumeExists fullName res]
      match res with
      | .error err => (some (Error.collaborator err), t)
      | .ok volExists =>
        if volExists then
          let t := t ++ [Event.Infof "Removing volume %s" fullName]
          let res := env.runNerdctlCmd (calls t) ["volume", "rm", "-f", fullName]
          let t := t ++ [Event.runNerdctlCmd ["volume", "rm", "-f", fullName] res]
          match res with
          | some err => (none, t ++ [Event.Warn (Error.collaborator err)])
          | none => (none, t)
        else
          (none, t)

/-- The loop shape that `Down` uses three times:
`for _, x := range xs { if err := body(x); err != nil { return err } }`. -/
def forRange {α : Type} (body : α → Trace → Option Error × Trace) :
    List α → Trace → Option Error × Trace
  | [], t => (none, t)
  | x :: rest, t =>
    match body x t with
    | (some err, t) => (some err, t)
    | (none, t) => forRange body rest t

/-- The unknown-field check that opens `Down`. -/
def warnUnknown (env : Env) (project : Project) (t : Trace) : Trace :=
  let unknown := env.UnknownNonEmptyFields project
  if unknown.length > 0 then t ++ [Event.Warnf "Ignoring: %+v" unknown] else t

/-- Method `Composer.Down`. -/
def Down (env : Env) (project : Project) (downOptions : DownOptions)
    (t : Trace) : Option Error × Trace :=
  let t := warnUnknown env project t
  match forRange (fun svc => downService env project svc downOptions.RemoveVolumes)
      project.Services t with
  | (some err, t) => (some err, t)
  | (none, t) =>
    match forRange (fun shortName => downNetwork env project shortName)
        (project.Networks.map Prod.fst) t with
    | (some err, t) => (some err, t)
    | (none, t) =>
      if downOptions.RemoveVolumes then
        match forRange (fun shortName => downVolume env project shortName)
            (project.Volumes.map Prod.fst) t with
        | (some err, t) => (some err, t)
        | (none, t) => (none, t)
      else
        (none, t)

/-! ## Reading a trace -/

/-- The command line of an event that is a `runNerdctlCmd` call. -/
def Event.command : Event → Option (List String)
  | .runNerdctlCmd args _ => some args
  | _ => none

/-- The removal commands of a trace, in the order they were issued. -/
def commands (t : Trace) : List (List String) := t.filterMap Event.command

/-- The error message of an event that is a failed service expansion or a
failed existence probe. -/
def Event.failure : Event → Option String
  | .Parse _ (.error msg) => some msg
  | .NetworkExists _ (.error msg) => some msg
  | .VolumeExists _ (.error msg) => some msg
  | _ => none

/-- The collaborator calls of a trace with their answers (the log lines are
dropped). -/
def interactions (t : Trace) : Trace := t.filter (fun e => e.toCall.isSome)

/-- The service expansions of a trace, with their answers. -/
def parses (t : Trace) : List (ServiceConfig × Answer Service) :=
  t.filterMap (fun e => match e with
    | Event.Parse svc res => some (svc, res)
    | _ => none)

/-- The network probes of a trace, with their answers. -/
def networkProbes (t : Trace) : List (String × Answer Bool) :=
  t.filterMap (fun e => match e with
    | Event.NetworkExists n res => some (n, res)
    | _ => none)

/-- The volume probes of a trace, with their answers. -/
def volumeProbes (t : Trace) : List (String × Answer Bool) :=
  t.filterMap (fun e => match e with
    | Event.VolumeExists n res => some (n, res)
    | _ => none)

/-- The environment `env` with another command executor. -/
def Env.withRun (env : Env) (run : List Call → List String → Option String) : Env :=
  { env with runNerdctlCmd := run }

/-- The log line that follows a command: a warning when the command failed. -/
def warnOf : Option String → Trace
  | some err => [Event.Warn (Error.collaborator err)]
  | none => []

/-- The command line `downService` builds for one container. -/
def containerArgs (removeAnonVolumes : Bool) (container : Container) : List String :=
  if removeAnonVolumes then ["rm", "-f", "-v", container.Name]
  else ["rm", "-f", container.Name]

/-- Block 1: a container removal for every instance of every expansion that the
trace records. -/
def containerBlock (removeAnonVolumes : Bool) (t : Trace) : List (List String) :=
  (parses t).flatMap (fun sr => match sr.2 with
    | Answer.ok ps => ps.Containers.map (containerArgs removeAnonVolumes)
    | Answer.error _ => [])

/-- Block 2: `network rm <full name>` for every network probe of the trace that
answered true. -/
def networkBlock (t : Trace) : List (List String) :=
  (networkProbes t).filterMap (fun nr =>
    if nr.2 = Answer.ok true then some ["network", "rm", nr.1] else none)

/-- Block 3: `volume rm -f <full name>` for every volume probe of the trace that
answered true. -/
def volumeBlock (t : Trace) : List (List String) :=
  (volumeProbes t).filterMap (fun nr =>
    if nr.2 = Answer.ok true then some ["volume", "rm", "-f", nr.1] else none)

/-- The full name that `downNetwork` probes for a short name: that of the
definition found, when it is not external. -/
def ownedNetwork (p : Project) (shortName : String) : Option String :=
  match p.Networks.lookup shortName with
  | some net => if net.External.External then none else some net.Name
  | none => none

/-- The full name that `downVolume` probes for a short name. -/
def ownedVolume (p : Project) (shortName : String) : Option String :=
  match p.Volumes.lookup shortName with
  | some vol => if vol.External.External then none else some vol.Name
  | none => none

/-- The full names of the network definitions that are not external, in the
order in which `range` visits them. -/
def ownedNetworks (p : Project) : List String :=
  (p.Networks.map Prod.fst).filterMap (ownedNetwork p)

/-- The full names of the volume definitions that are not external, in the
order in which `range` visits them. -/
def ownedVolumes (p : Project) : List String :=
  (p.Volumes.map Prod.fst).filterMap (ownedVolume p)

/-! ## Properties of traces -/

/-- Every network or volume removal command of `l` comes right after a probe
that answered "exists" for the same full name. -/
def Guarded (l : Trace) : Prop :=
  ∀ pre e post, l = pre ++ e :: post →
    (∀ n r, e = Event.runNerdctlCmd ["network", "rm", n] r →
      ∃ pre', pre = pre' ++ [Event.NetworkExists n (Answer.ok true)]) ∧
    (∀ n r, e = Event.runNerdctlCmd ["volume", "rm", "-f", n] r →
      ∃ pre', pre = pre' ++ [Event.VolumeExists n (Answer.ok true)])

/-- Every failed command of `l` is directly followed by the warning that logs
its error. -/
def Warned (l : Trace) : Prop :=
  ∀ pre args msg post, l = pre ++ Event.runNerdctlCmd args (some msg) :: post →
    ∃ post', post = Event.Warn (Error.collaborator msg) :: post'

/-- No event of `es` is a `VolumeExists` probe or a command that starts with
`volume rm`. -/
def NoVolume (es : Trace) : Prop :=
  ∀ e ∈ es, (∀ n r, e ≠ Event.VolumeExists n r) ∧
    (∀ args r, e = Event.runNerdctlCmd args r → args.take 2 ≠ ["volume", "rm"])

/-- Every service expansion that `es` records, at whatever place, opens the
events of a `downService` call with the flag `rav` made at that place: the
events that follow it are those the call adds, and their commands are the
removals of the containers the expansion returned. -/
def ServiceCalls (env : Env) (p : Project) (rav : Bool) (t0 es : Trace) : Prop :=
  ∀ pre svc res post, es = pre ++ Event.Parse svc res :: post →
    ∃ cs post', post = cs ++ post' ∧
      (downService env p svc rav (t0 ++ pre)).2 = t0 ++ pre ++ Event.Parse svc res :: cs ∧
      commands cs = (match res with
        | Answer.ok ps' => ps'.Containers.map (fun c =>
            if rav = true then ["rm", "-f", "-v", c.Name] else ["rm", "-f", c.Name])
        | Answer.error _ => [])

/-- The events of `es` are log lines and commands only: no expansion and no
probe. -/
def Quiet (es : Trace) : Prop :=
  parses es = [] ∧ networkProbes es = [] ∧ volumeProbes es = []

/-- What the service loop over `svcs` adds when it returns `r`: no probe, the
container removals of the expansions it records, an expansion of every service
in turn when it succeeds, a failed expansion when it fails. -/
def ServicePhase (rav : Bool) (svcs : List ServiceConfig) (r : Option Error)
    (es : Trace) : Prop :=
  networkProbes es = [] ∧ volumeProbes es = [] ∧ commands es = containerBlock rav es ∧
  (r = none → (parses es).map Prod.fst = svcs) ∧
  (∀ err, r = some err → ∃ e ∈ es, e.failure ≠ none)

/-- What the network loop over the short names `ks` adds when it returns `r`. -/
def NetworkPhase (p : Project) (ks : List String) (r : Option Error) (es : Trace) : Prop :=
  parses es = [] ∧ volumeProbes es = [] ∧ commands es = networkBlock es ∧
  (r = none → (networkProbes es).map Prod.fst = ks.filterMap (ownedNetwork p)) ∧
  (∀ err, r = some err → ∃ e ∈ es, e.failure ≠ none)

/-- What the volume loop over the short names `ks` adds when it returns `r`. -/
def VolumePhase (p : Project) (ks : List String) (r : Option Error) (es : Trace) : Prop :=
  parses es = [] ∧ networkProbes es = [] ∧ commands es = volumeBlock es ∧
  (r = none → (volumeProbes es).map Prod.fst = ks.filterMap (ownedVolume p)) ∧
  (∀ err, r = some err → ∃ e ∈ es, e.failure ≠ none)

/-- What a run of `Down` adds to the trace, block by block. -/
def DownBlocks (p : Project) (o : DownOptions) (r : Option Error) (es : Trace) : Prop :=
  commands es = containerBlock o.RemoveVolumes es ++ networkBlock es ++ volumeBlock es ∧
  (r = none →
    (parses es).map Prod.fst = p.Services ∧
    (networkProbes es).map Prod.fst = ownedNetworks p ∧
    (volumeProbes es).map Prod.fst = if o.RemoveVolumes then ownedVolumes p else []) ∧
  (∀ err, r = some err → ∃ e ∈ es, e.failure ≠ none)

/-! ## Concrete projects and runtimes -/

/-- A runtime in which every service expands to two instances, every network
exists, no volume exists and every command succeeds. -/
def envDemo : Env where
  UnknownNonEmptyFields := fun _ => []
  Parse := fun _ p svc =>
    Answer.ok ⟨[⟨p.Name ++ "_" ++ svc.Name ++ "_1"⟩,
      ⟨p.Name ++ "_" ++ svc.Name ++ "_2"⟩]⟩
  NetworkExists := fun _ _ => Answer.ok true
  VolumeExists := fun _ _ => Answer.ok false
  runNerdctlCmd := fun _ _ => none

/-- A runtime in which every network and every volume exists and every command
succeeds; services expand to one instance. -/
def envAllPresent : Env where
  UnknownNonEmptyFields := fun _ => []
  Parse := fun _ p svc => Answer.ok ⟨[⟨p.Name ++ "_" ++ svc.Name ++ "_1"⟩]⟩
  NetworkExists := fun _ _ => Answer.ok true
  VolumeExists := fun _ _ => Answer.ok true
  runNerdctlCmd := fun _ _ => none

/-- A runtime in which no network and no volume exists (any more); services
expand to one instance and every command succeeds. -/
def envAbsent : Env where
  UnknownNonEmptyFields := fun _ => []
  Parse := fun _ p svc => Answer.ok ⟨[⟨p.Name ++ "_" ++ svc.Name ++ "_1"⟩]⟩
  NetworkExists := fun _ _ => Answer.ok false
  VolumeExists := fun _ _ => Answer.ok false
  runNerdctlCmd := fun _ _ => none

/-- A runtime that cannot be reached: both existence probes fail.  Services
expand to one instance and commands succeed. -/
def envUnreachable : Env where
  UnknownNonEmptyFields := fun _ => []
  Parse := fun _ p svc => Answer.ok ⟨[⟨p.Name ++ "_" ++ svc.Name ++ "_1"⟩]⟩
  NetworkExists := fun _ _ => Answer.error "runtime unreachable"
  VolumeExists := fun _ _ => Answer.error "runtime unreachable"
  runNerdctlCmd := fun _ _ => none

/-- A runtime in which every service runs the three instances `P_web_1`,
`P_web_2`, `P_web_3`, and the removal of `P_web_2` fails. -/
def envThree : Env where
  UnknownNonEmptyFields := fun _ => []
  Parse := fun _ _ _ => Answer.ok ⟨[⟨"P_web_1"⟩, ⟨"P_web_2"⟩, ⟨"P_web_3"⟩]⟩
  NetworkExists := fun _ _ => Answer.ok true
  VolumeExists := fun _ _ => Answer.ok true
  runNerdctlCmd := fun _ args =>
    if args = ["rm", "-f", "P_web_2"] then some "exit status 1" else none

/-- A runtime that remembers what was removed: a network or volume exists until
the command that removes it has been issued, and a command issued a second time
fails.  Services expand to one instance, whatever has been removed. -/
def envRuntime : Env where
  UnknownNonEmptyFields := fun _ => []
  Parse := fun _ p svc => Answer.ok ⟨[⟨p.Name ++ "_" ++ svc.Name ++ "_1"⟩]⟩
  NetworkExists := fun h n =>
    Answer.ok (decide (Call.runNerdctlCmd ["network", "rm", n] ∉ h))
  VolumeExists := fun h n =>
    Answer.ok (decide (Call.runNerdctlCmd ["volume", "rm", "-f", n] ∉ h))
  runNerdctlCmd := fun h args =>
    if Call.runNerdctlCmd args ∈ h then some "no such object" else none

/-- The project `P` with service `web`, network `default` and volume `data`,
both owned by the project. -/
def projDemo : Project where
  Name := "P"
  WorkingDir := "/srv/P"
  Services := [⟨"web"⟩]
  Networks := [("default", ⟨"P_default", ⟨false⟩⟩)]
  Volumes := [("data", ⟨"P_data", ⟨false⟩⟩)]
  ComposeFiles := ["docker-compose.yaml"]

/-- A project with two network definitions that resolve to the same full name
`shared` (both set `name: shared`): `front` is external, `back` is owned. -/
def projShared : Project where
  Name := "P"
  WorkingDir := "/srv/P"
  Services := []
  Networks := [("front", ⟨"shared", ⟨true⟩⟩), ("back", ⟨"shared", ⟨false⟩⟩)]
  Volumes := []
  ComposeFiles := ["docker-compose.yaml"]

/-- What `Down` of `projDemo` with `RemoveVolumes` adds in `envDemo`. -/
def demoRun : Trace :=
  [Event.Parse ⟨"web"⟩ (Answer.ok ⟨[⟨"P_web_1"⟩, ⟨"P_web_2"⟩]⟩),
   Event.Infof "Removing container %s" "P_web_1",
   Event.runNerdctlCmd ["rm", "-f", "-v", "P_web_1"] none,
   Event.Infof "Removing container %s" "P_web_2",
   Event.runNerdctlCmd ["rm", "-f", "-v", "P_web_2"] none,
   Event.NetworkExists "P_default" (Answer.ok true),
   Event.Infof "Removing network %s" "P_default",
   Event.runNerdctlCmd ["network", "rm", "P_default"] none,
   Event.VolumeExists "P_data" (Answer.ok false)]

/-- The trace of a first `Down` of `projDemo` in `envRuntime`, which removes the
container, the network and the volume. -/
def firstRun : Trace :=
  [Event.Parse ⟨"web"⟩ (Answer.ok ⟨[⟨"P_web_1"⟩]⟩),
   Event.Infof "Removing container %s" "P_web_1",
   Event.runNerdctlCmd ["rm", "-f", "-v", "P_web_1"] none,
   Event.NetworkExists "P_default" (Answer.ok true),
   Event.Infof "Removing network %s" "P_default",
   Event.runNerdctlCmd ["network", "rm", "P_default"] none,
   Event.VolumeExists "P_data" (Answer.ok true),
   Event.Infof "Removing volume %s" "P_data",
   Event.runNerdctlCmd ["volume", "rm", "-f", "P_data"] none]

/-- What a second `Down` of `projDemo` adds after `firstRun`. -/
def secondRun : Trace :=
  [Event.Parse ⟨"web"⟩ (Answer.ok ⟨[⟨"P_web_1"⟩]⟩),
   Event.Infof "Removing container %s" "P_web_1",
   Event.runNerdctlCmd ["rm", "-f", "-v", "P_web_1"] (some "no such object"),
   Event.Warn (Error.collaborator "no such object"),
   Event.NetworkExists "P_default" (Answer.ok false),
   Event.VolumeExists "P_data" (Answer.ok false)]

/-- What `Down` of `projDemo` with `RemoveVolumes` adds in `envThree`: the three
instances are removed with `-v`, then the network and the volume. -/
def threeRun : Trace :=
  [Event.Parse ⟨"web"⟩ (Answer.ok ⟨[⟨"P_web_1"⟩, ⟨"P_web_2"⟩, ⟨"P_web_3"⟩]⟩),
   Event.Infof "Removing container %s" "P_web_1",
   Event.runNerdctlCmd ["rm", "-f", "-v", "P_web_1"] none,
   Event.Infof "Removing container %s" "P_web_2",
   Event.runNerdctlCmd ["rm", "-f", "-v", "P_web_2"] none,
   Event.Infof "Removing container %s" "P_web_3",
   Event.runNerdctlCmd ["rm", "-f", "-v", "P_web_3"] none,
   Event.NetworkExists "P_default" (Answer.ok true),
   Event.Infof "Removing network %s" "P_default",
   Event.runNerdctlCmd ["network", "rm", "P_default"] none,
   Event.VolumeExists "P_data" (Answer.ok true),
   Event.Infof "Removing volume %s" "P_data",
   Event.runNerdctlCmd ["volume", "rm", "-f", "P_data"] none]

/-! ## Basic facts about traces -/

@[simp] theorem calls_nil : calls [] = [] := rfl

@[simp] theorem calls_append (a b : Trace) : calls (a ++ b) = calls a ++ calls b := by
  simp [calls]

@[simp] theorem commands_nil : commands [] = [] := rfl

@[simp] theorem commands_append (a b : Trace) :
    commands (a ++ b) = commands a ++ commands b := by
  simp [commands]

@[simp] theorem interactions_nil : interactions [] = [] := rfl

@[simp] theorem interactions_append (a b : Trace) :
    interactions (a ++ b) = interactions a ++ interactions b := by
  simp [interactions]

@[simp] theorem calls_warnOf (r : Option String) : calls (warnOf r) = [] := by
  cases r <;> rfl

@[simp] theorem commands_warnOf (r : Option String) : commands (warnOf r) = [] := by
  cases r <;> rfl

@[simp] theorem interactions_warnOf (r : Option String) : interactions (warnOf r) = [] := by
  cases r <;> rfl

theorem mem_warnOf {e : Event} {r : Option String} (h : e ∈ warnOf r) :
    ∃ msg, r = some msg ∧ e = Event.Warn (Error.collaborator msg) := by
  cases r with
  | none => simp [warnOf] at h
  | some msg => exact ⟨msg, rfl, by simpa [warnOf] using h⟩

/-! ## What each method adds to the trace -/

/-- One round of the container loop, written with `containerArgs` and `warnOf`. -/
theorem removeContainers_cons (env : Env) (rav : Bool) (c : Container)
    (rest : List Container) (t : Trace) :
    removeContainers env rav (c :: rest) t =
      removeContainers env rav rest
        (t ++ ([Event.Infof "Removing container %s" c.Name,
                Event.runNerdctlCmd (containerArgs rav c)
                  (env.runNerdctlCmd (calls (t ++ [Event.Infof "Removing container %s" c.Name]))
                    (containerArgs rav c))] ++
               warnOf (env.runNerdctlCmd
                  (calls (t ++ [Event.Infof "Removing container %s" c.Name]))
                  (containerArgs rav c)))) := by
  have hargs : ((if rav then ["rm", "-f"] ++ ["-v"] else ["rm", "-f"]) ++ [c.Name])
      = containerArgs rav c := by
    cases rav <;> rfl
  rw [removeContainers]
  simp only [hargs]
  cases h : env.runNerdctlCmd (calls (t ++ [Event.Infof "Removing container %s" c.Name]))
      (containerArgs rav c) <;> simp [warnOf]

/-- The container loop adds, for every container in turn, its log line, its
command and the warning of a failed command; any property of traces that holds
of these pieces and is kept by concatenation holds of what the loop adds. -/
theorem removeContainers_rule (env : Env) (rav : Bool) (P : Trace → Prop)
    (hnil : P []) (happ : ∀ a b, P a → P b → P (a ++ b)) (cs : List Container)
    (hstep : ∀ c ∈ cs, ∀ r, P ([Event.Infof "Removing container %s" c.Name,
        Event.runNerdctlCmd (containerArgs rav c) r] ++ warnOf r)) :
    ∀ t, ∃ es, removeContainers env rav cs t = t ++ es ∧ P es := by
  induction cs with
  | nil => intro t; exact ⟨[], by simp [removeContainers], hnil⟩
  | cons c rest ih =>
    intro t
    have key := removeContainers_cons env rav c rest t
    generalize env.runNerdctlCmd (calls (t ++ [Event.Infof "Removing container %s" c.Name]))
      (containerArgs rav c) = r at key
    obtain ⟨es, hes, hP⟩ := ih (fun c hc => hstep c (List.mem_cons_of_mem _ hc))
      (t ++ ([Event.Infof "Removing container %s" c.Name,
        Event.runNerdctlCmd (containerArgs rav c) r] ++ warnOf r))
    refine ⟨([Event.Infof "Removing container %s" c.Name,
        Event.runNerdctlCmd (containerArgs rav c) r] ++ warnOf r) ++ es, ?_,
      happ _ _ (hstep c (List.mem_cons_self _ _) r) hP⟩
    rw [key, hes, List.append_assoc]

/-- The commands the container loop adds: one per container, in list order. -/
theorem removeContainers_commands (env : Env) (rav : Bool) (cs : List Container) :
    ∀ t, ∃ es, removeContainers env rav cs t = t ++ es ∧
      commands es = cs.map (containerArgs rav) := by
  induction cs with
  | nil => intro t; exact ⟨[], by simp [removeContainers], rfl⟩
  | cons c rest ih =>
    intro t
    have key := removeContainers_cons env rav c rest t
    generalize env.runNerdctlCmd (calls (t ++ [Event.Infof "Removing container %s" c.Name]))
      (containerArgs rav c) = r at key
    obtain ⟨es, hes, hc⟩ := ih
      (t ++ ([Event.Infof "Removing container %s" c.Name,
        Event.runNerdctlCmd (containerArgs rav c) r] ++ warnOf r))
    refine ⟨([Event.Infof "Removing container %s" c.Name,
        Event.runNerdctlCmd (containerArgs rav c) r] ++ warnOf r) ++ es, ?_, ?_⟩
    · rw [key, hes, List.append_assoc]
    · rw [commands_append, commands_append, hc, commands_warnOf]
      simp [commands, Event.command]

/-- The outcomes of `downService`: the expansion fails and its error is
returned, or it succeeds and the container loop runs. -/
theorem downService_cases (env : Env) (p : Project) (svc : ServiceConfig) (rav : Bool)
    (t : Trace) :
    (∃ msg, env.Parse (calls t) p svc = Answer.error msg ∧
      downService env p svc rav t =
        (some (Error.collaborator msg), t ++ [Event.Parse svc (Answer.error msg)])) ∨
    (∃ ps, env.Parse (calls t) p svc = Answer.ok ps ∧
      downService env p svc rav t =
        (none, removeContainers env rav ps.Containers
          (t ++ [Event.Parse svc (Answer.ok ps)]))) := by
  unfold downService
  cases h : env.Parse (calls t) p svc with
  | error msg => left; exact ⟨msg, rfl, rfl⟩
  | ok ps => right; exact ⟨ps, rfl, rfl⟩

/-- The five outcomes of `downNetwork`. -/
theorem downNetwork_cases (env : Env) (p : Project) (s : String) (t : Trace) :
    (p.Networks.lookup s = none ∧
      downNetwork env p s t = (some (Error.invalidNetworkName s), t)) ∨
    (∃ net, p.Networks.lookup s = some net ∧ net.External.External = true ∧
      downNetwork env p s t = (none, t)) ∨
    (∃ net msg, p.Networks.lookup s = some net ∧ net.External.External = false ∧
      env.NetworkExists (calls t) net.Name = Answer.error msg ∧
      downNetwork env p s t =
        (some (Error.collaborator msg),
          t ++ [Event.NetworkExists net.Name (Answer.error msg)])) ∨
    (∃ net, p.Networks.lookup s = some net ∧ net.External.External = false ∧
      env.NetworkExists (calls t) net.Name = Answer.ok false ∧
      downNetwork env p s t = (none, t ++ [Event.NetworkExists net.Name (Answer.ok false)])) ∨
    (∃ net r, p.Networks.lookup s = some net ∧ net.External.External = false ∧
      env.NetworkExists (calls t) net.Name = Answer.ok true ∧
      downNetwork env p s t =
        (none, t ++ ([Event.NetworkExists net.Name (Answer.ok true),
            Event.Infof "Removing network %s" net.Name,
            Event.runNerdctlCmd ["network", "rm", net.Name] r] ++ warnOf r))) := by
  cases hl : p.Networks.lookup s with
  | none => left; exact ⟨rfl, by simp [downNetwork, hl]⟩
  | some net =>
    right
    cases hx : net.External.External with
    | true => left; exact ⟨net, rfl, hx, by simp [downNetwork, hl, hx]⟩
    | false =>
      right
      cases hp : env.NetworkExists (calls t) net.Name with
      | error msg => left; exact ⟨net, msg, rfl, hx, hp, by simp [downNetwork, hl, hx, hp]⟩
      | ok b =>
        right
        cases b with
        | false => left; exact ⟨net, rfl, hx, hp, by simp [downNetwork, hl, hx, hp]⟩
        | true =>
          right
          refine ⟨net, env.runNerdctlCmd (calls ((t ++ [Event.NetworkExists net.Name
            (Answer.ok true)]) ++ [Event.Infof "Removing network %s" net.Name]))
            ["network", "rm", net.Name], rfl, hx, hp, ?_⟩
          cases hr : env.runNerdctlCmd (calls ((t ++ [Event.NetworkExists net.Name
            (Answer.ok true)]) ++ [Event.Infof "Removing network %s" net.Name]))
            ["network", "rm", net.Name] <;>
            simp [downNetwork, hl, hx, hp, warnOf] <;> simp_all

/-- The five outcomes of `downVolume`. -/
theorem downVolume_cases (env : Env) (p : Project) (s : String) (t : Trace) :
    (p.Volumes.lookup s = none ∧
      downVolume env p s t = (some (Error.invalidVolumeName s), t)) ∨
    (∃ vol, p.Volumes.lookup s = some vol ∧ vol.External.External = true ∧
      downVolume env p s t = (none, t)) ∨
    (∃ vol msg, p.Volumes.lookup s = some vol ∧ vol.External.External = false ∧
      env.VolumeExists (calls t) vol.Name = Answer.error msg ∧
      downVolume env p s t =
        (some (Error.collaborator msg),
          t ++ [Event.VolumeExists vol.Name (Answer.error msg)])) ∨
    (∃ vol, p.Volumes.lookup s = some vol ∧ vol.External.External = false ∧
      env.VolumeExists (calls t) vol.Name = Answer.ok false ∧
      downVolume env p s t = (none, t ++ [Event.VolumeExists vol.Name (Answer.ok false)])) ∨
    (∃ vol r, p.Volumes.lookup s = some vol ∧ vol.External.External = false ∧
      env.VolumeExists (calls t) vol.Name = Answer.ok true ∧
      downVolume env p s t =
        (none, t ++ ([Event.VolumeExists vol.Name (Answer.ok true),
            Event.Infof "Removing volume %s" vol.Name,
            Event.runNerdctlCmd ["volume", "rm", "-f", vol.Name] r] ++ warnOf r))) := by
  cases hl : p.Volumes.lookup s with
  | none => left; exact ⟨rfl, by simp [downVolume, hl]⟩
  | some vol =>
    right
    cases hx : vol.External.External with
    | true => left; exact ⟨vol, rfl, hx, by simp [downVolume, hl, hx]⟩
    | false =>
      right
      cases hp : env.VolumeExists (calls t) vol.Name with
      | error msg => left; exact ⟨vol, msg, rfl, hx, hp, by simp [downVolume, hl, hx, hp]⟩
      | ok b =>
        right
        cases b with
        | false => left; exact ⟨vol, rfl, hx, hp, by simp [downVolume, hl, hx, hp]⟩
        | true =>
          right
          refine ⟨vol, env.runNerdctlCmd (calls ((t ++ [Event.VolumeExists vol.Name
            (Answer.ok true)]) ++ [Event.Infof "Removing volume %s" vol.Name]))
            ["volume", "rm", "-f", vol.Name], rfl, hx, hp, ?_⟩
          cases hr : env.runNerdctlCmd (calls ((t ++ [Event.VolumeExists vol.Name
            (Answer.ok true)]) ++ [Event.Infof "Removing volume %s" vol.Name]))
            ["volume", "rm", "-f", vol.Name] <;>
            simp [downVolume, hl, hx, hp, warnOf] <;> simp_all

/-! ## Rules for the loops and for `Down` -/

/-- A key of an association list is found by `lookup`. -/
theorem lookup_of_mem_keys {β : Type} (l : List (String × β)) (s : String)
    (h : s ∈ l.map Prod.fst) : ∃ v, l.lookup s = some v := by
  induction l with
  | nil => simp at h
  | cons kv rest ih =>
    obtain ⟨k, v⟩ := kv
    by_cases hk : s = k
    · subst hk; exact ⟨v, by simp [List.lookup]⟩
    · have hmem : s ∈ rest.map Prod.fst := by
        simp only [List.map_cons, List.mem_cons] at h
        rcases h with h | h
        · exact absurd h hk
        · exact h
      obtain ⟨w, hw⟩ := ih hmem
      refine ⟨w, ?_⟩
      have hne : (s == k) = false := by simpa using hk
      simp [List.lookup, hne, hw]

/-- Rule for a loop that stops at the first error: `Q r es` relates the value a
piece of code returns with the events it adds.  If `Q` holds of every round and
is kept when a successful piece is followed by another piece, it holds of the
loop. -/
theorem forRange_rule {α : Type} (body : α → Trace → Option Error × Trace)
    (Q : Option Error → Trace → Prop) (hnil : Q none [])
    (hseq : ∀ a r b, Q none a → Q r b → Q r (a ++ b)) (xs : List α)
    (hbody : ∀ x ∈ xs, ∀ t, ∃ es, (body x t).2 = t ++ es ∧ Q (body x t).1 es) :
    ∀ t, ∃ es, (forRange body xs t).2 = t ++ es ∧ Q (forRange body xs t).1 es := by
  induction xs with
  | nil => intro t; exact ⟨[], by simp [forRange], hnil⟩
  | cons x rest ih =>
    intro t
    obtain ⟨es, hes, hQ⟩ := hbody x (List.mem_cons_self _ _) t
    cases hb : body x t with
    | mk r t1 =>
      rw [hb] at hes hQ
      simp only at hes hQ
      subst hes
      cases r with
      | some err =>
        refine ⟨es, ?_, ?_⟩
        · simp [forRange, hb]
        · simpa [forRange, hb] using hQ
      | none =>
        obtain ⟨es2, hes2, hQ2⟩ :=
          ih (fun x hx => hbody x (List.mem_cons_of_mem _ hx)) (t ++ es)
        refine ⟨es ++ es2, ?_, ?_⟩
        · simp [forRange, hb, hes2]
        · simpa [forRange, hb] using hseq _ _ _ hQ hQ2

/-- What the unknown-field check adds: nothing, or one warning. -/
theorem warnUnknown_cases (env : Env) (p : Project) (t : Trace) :
    warnUnknown env p t = t ∨
    warnUnknown env p t = t ++ [Event.Warnf "Ignoring: %+v" (env.UnknownNonEmptyFields p)] := by
  unfold warnUnknown
  by_cases h : (env.UnknownNonEmptyFields p).length > 0
  · right; simp [h]
  · left; simp [h]

/-- Rule for `Down`: a relation `Q` between returned value and added events that
holds of the unknown-field warning, of every `downService`, `downNetwork` and
`downVolume` call that `Down` can make, and is kept by sequencing, holds of
`Down`. -/
theorem Down_rule (env : Env) (p : Project) (o : DownOptions)
    (Q : Option Error → Trace → Prop) (hnil : Q none [])
    (hseq : ∀ a r b, Q none a → Q r b → Q r (a ++ b))
    (hwarn : ∀ f u, Q none [Event.Warnf f u])
    (hsvc : ∀ svc ∈ p.Services, ∀ t, ∃ es,
      (downService env p svc o.RemoveVolumes t).2 = t ++ es ∧
      Q (downService env p svc o.RemoveVolumes t).1 es)
    (hnet : ∀ s ∈ p.Networks.map Prod.fst, ∀ t, ∃ es,
      (downNetwork env p s t).2 = t ++ es ∧ Q (downNetwork env p s t).1 es)
    (hvol : o.RemoveVolumes = true → ∀ s ∈ p.Volumes.map Prod.fst, ∀ t, ∃ es,
      (downVolume env p s t).2 = t ++ es ∧ Q (downVolume env p s t).1 es)
    (t : Trace) :
    ∃ es, (Down env p o t).2 = t ++ es ∧ Q (Down env p o t).1 es := by
  have h0 : ∃ es0, warnUnknown env p t = t ++ es0 ∧ Q none es0 := by
    rcases warnUnknown_cases env p t with h | h
    · exact ⟨[], by simp [h], hnil⟩
    · exact ⟨_, h, hwarn _ _⟩
  obtain ⟨es0, h0, hQ0⟩ := h0
  obtain ⟨es1, h1, hQ1⟩ := forRange_rule
    (fun svc => downService env p svc o.RemoveVolumes) Q hnil hseq p.Services hsvc
    (warnUnknown env p t)
  unfold Down
  simp only
  cases hb1 : forRange (fun svc => downService env p svc o.RemoveVolumes) p.Services
      (warnUnknown env p t) with
  | mk r1 t1 =>
    rw [hb1] at h1 hQ1
    simp only at h1 hQ1
    cases r1 with
    | some err =>
      exact ⟨es0 ++ es1, by simp [h1, h0], hseq _ _ _ hQ0 hQ1⟩
    | none =>
      obtain ⟨es2, h2, hQ2⟩ := forRange_rule
        (fun s => downNetwork env p s) Q hnil hseq (p.Networks.map Prod.fst) hnet t1
      simp only
      cases hb2 : forRange (fun s => downNetwork env p s) (p.Networks.map Prod.fst) t1 with
      | mk r2 t2 =>
        rw [hb2] at h2 hQ2
        simp only at h2 hQ2
        have hQ12 : Q r2 (es0 ++ es1 ++ es2) :=
          hseq _ _ _ (hseq _ _ _ hQ0 hQ1) hQ2
        cases r2 with
        | some err =>
          exact ⟨es0 ++ es1 ++ es2, by simp [h2, h1, h0], hQ12⟩
        | none =>
          simp only
          cases hrv : o.RemoveVolumes with
          | false =>
            exact ⟨es0 ++ es1 ++ es2, by simp [h2, h1, h0], by simpa using hQ12⟩
          | true =>
            obtain ⟨es3, h3, hQ3⟩ := forRange_rule
              (fun s => downVolume env p s) Q hnil hseq (p.Volumes.map Prod.fst)
              (hvol hrv) t2
            simp only [if_true]
            cases hb3 : forRange (fun s => downVolume env p s)
                (p.Volumes.map Prod.fst) t2 with
            | mk r3 t3 =>
              rw [hb3] at h3 hQ3
              simp only at h3 hQ3
              have hQ123 : Q r3 (es0 ++ es1 ++ es2 ++ es3) := hseq _ _ _ hQ12 hQ3
              cases r3 with
              | some err =>
                exact ⟨es0 ++ es1 ++ es2 ++ es3, by simp [h3, h2, h1, h0], hQ123⟩
              | none =>
                exact ⟨es0 ++ es1 ++ es2 ++ es3, by simp [h3, h2, h1, h0], hQ123⟩

/-- Rule for `downService`, from the pieces it can add to the trace. -/
theorem downService_rule (env : Env) (p : Project) (svc : ServiceConfig) (rav : Bool)
    (Q : Option Error → Trace → Prop) (hnil : Q none [])
    (hseq : ∀ a r b, Q none a → Q r b → Q r (a ++ b))
    (hfail : ∀ msg, Q (some (Error.collaborator msg)) [Event.Parse svc (Answer.error msg)])
    (hok : ∀ ps, Q none [Event.Parse svc (Answer.ok ps)])
    (hrm : ∀ c r, Q none ([Event.Infof "Removing container %s" c.Name,
      Event.runNerdctlCmd (containerArgs rav c) r] ++ warnOf r))
    (t : Trace) :
    ∃ es, (downService env p svc rav t).2 = t ++ es ∧
      Q (downService env p svc rav t).1 es := by
  rcases downService_cases env p svc rav t with ⟨msg, _, h⟩ | ⟨ps, _, h⟩
  · rw [h]; exact ⟨_, rfl, hfail msg⟩
  · rw [h]
    obtain ⟨es, hes, hP⟩ := removeContainers_rule env rav (Q none) hnil
      (fun a b ha hb => hseq a none b ha hb) ps.Containers (fun c _ r => hrm c r)
      (t ++ [Event.Parse svc (Answer.ok ps)])
    refine ⟨[Event.Parse svc (Answer.ok ps)] ++ es, ?_, hseq _ _ _ (hok ps) hP⟩
    simp only [hes, List.append_assoc]

/-- Rule for `downNetwork` on a short name that the mapping holds. -/
theorem downNetwork_rule (env : Env) (p : Project) (s : String)
    (Q : Option Error → Trace → Prop) (hnil : Q none [])
    (hkey : s ∈ p.Networks.map Prod.fst)
    (hfail : ∀ net msg, p.Networks.lookup s = some net → net.External.External = false →
      Q (some (Error.collaborator msg)) [Event.NetworkExists net.Name (Answer.error msg)])
    (habsent : ∀ net, p.Networks.lookup s = some net → net.External.External = false →
      Q none [Event.NetworkExists net.Name (Answer.ok false)])
    (hpresent : ∀ net r, p.Networks.lookup s = some net → net.External.External = false →
      Q none ([Event.NetworkExists net.Name (Answer.ok true),
        Event.Infof "Removing network %s" net.Name,
        Event.runNerdctlCmd ["network", "rm", net.Name] r] ++ warnOf r))
    (t : Trace) :
    ∃ es, (downNetwork env p s t).2 = t ++ es ∧ Q (downNetwork env p s t).1 es := by
  obtain ⟨v, hv⟩ := lookup_of_mem_keys p.Networks s hkey
  rcases downNetwork_cases env p s t with ⟨hl, _⟩ | ⟨net, _, _, h⟩ |
    ⟨net, msg, hl, hx, _, h⟩ |
    ⟨net, hl, hx, _, h⟩ | ⟨net, r, hl, hx, _, h⟩
  · rw [hl] at hv; cases hv
  · rw [h]; exact ⟨[], by simp, hnil⟩
  · rw [h]; exact ⟨_, rfl, hfail net msg hl hx⟩
  · rw [h]; exact ⟨_, rfl, habsent net hl hx⟩
  · rw [h]; exact ⟨_, rfl, hpresent net r hl hx⟩

/-- Rule for `downVolume` on a short name that the mapping holds. -/
theorem downVolume_rule (env : Env) (p : Project) (s : String)
    (Q : Option Error → Trace → Prop) (hnil : Q none [])
    (hkey : s ∈ p.Volumes.map Prod.fst)
    (hfail : ∀ vol msg, p.Volumes.lookup s = some vol → vol.External.External = false →
      Q (some (Error.collaborator msg)) [Event.VolumeExists vol.Name (Answer.error msg)])
    (habsent : ∀ vol, p.Volumes.lookup s = some vol → vol.External.External = false →
      Q none [Event.VolumeExists vol.Name (Answer.ok false)])
    (hpresent : ∀ vol r, p.Volumes.lookup s = some vol → vol.External.External = false →
      Q none ([Event.VolumeExists vol.Name (Answer.ok true),
        Event.Infof "Removing volume %s" vol.Name,
        Event.runNerdctlCmd ["volume", "rm", "-f", vol.Name] r] ++ warnOf r))
    (t : Trace) :
    ∃ es, (downVolume env p s t).2 = t ++ es ∧ Q (downVolume env p s t).1 es := by
  obtain ⟨v, hv⟩ := lookup_of_mem_keys p.Volumes s hkey
  rcases downVolume_cases env p s t with ⟨hl, _⟩ | ⟨vol, _, _, h⟩ |
    ⟨vol, msg, hl, hx, _, h⟩ |
    ⟨vol, hl, hx, _, h⟩ | ⟨vol, r, hl, hx, _, h⟩
  · rw [hl] at hv; cases hv
  · rw [h]; exact ⟨[], by simp, hnil⟩
  · rw [h]; exact ⟨_, rfl, hfail vol msg hl hx⟩
  · rw [h]; exact ⟨_, rfl, habsent vol hl hx⟩
  · rw [h]; exact ⟨_, rfl, hpresent vol r hl hx⟩

/-- Rule for `Down`, from the pieces its calls can add to the trace: the
unknown-field warning, a failed or successful expansion, one container removal,
a failed probe, a probe that answers "absent", and a probe that answers
"present" followed by the removal. -/
theorem Down_pieces (env : Env) (p : Project) (o : DownOptions)
    (Q : Option Error → Trace → Prop) (hnil : Q none [])
    (hseq : ∀ a r b, Q none a → Q r b → Q r (a ++ b))
    (hwarn : ∀ f u, Q none [Event.Warnf f u])
    (hparseFail : ∀ svc msg,
      Q (some (Error.collaborator msg)) [Event.Parse svc (Answer.error msg)])
    (hparseOk : ∀ svc ps, Q none [Event.Parse svc (Answer.ok ps)])
    (hrm : ∀ c r, Q none ([Event.Infof "Removing container %s" c.Name,
      Event.runNerdctlCmd (containerArgs o.RemoveVolumes c) r] ++ warnOf r))
    (hnetFail : ∀ s net msg, p.Networks.lookup s = some net →
      net.External.External = false →
      Q (some (Error.collaborator msg)) [Event.NetworkExists net.Name (Answer.error msg)])
    (hnetAbsent : ∀ s net, p.Networks.lookup s = some net → net.External.External = false →
      Q none [Event.NetworkExists net.Name (Answer.ok false)])
    (hnetPresent : ∀ s net r, p.Networks.lookup s = some net →
      net.External.External = false →
      Q none ([Event.NetworkExists net.Name (Answer.ok true),
        Event.Infof "Removing network %s" net.Name,
        Event.runNerdctlCmd ["network", "rm", net.Name] r] ++ warnOf r))
    (hvolFail : o.RemoveVolumes = true → ∀ s vol msg, p.Volumes.lookup s = some vol →
      vol.External.External = false →
      Q (some (Error.collaborator msg)) [Event.VolumeExists vol.Name (Answer.error msg)])
    (hvolAbsent : o.RemoveVolumes = true → ∀ s vol, p.Volumes.lookup s = some vol →
      vol.External.External = false →
      Q none [Event.VolumeExists vol.Name (Answer.ok false)])
    (hvolPresent : o.RemoveVolumes = true → ∀ s vol r, p.Volumes.lookup s = some vol →
      vol.External.External = false →
      Q none ([Event.VolumeExists vol.Name (Answer.ok true),
        Event.Infof "Removing volume %s" vol.Name,
        Event.runNerdctlCmd ["volume", "rm", "-f", vol.Name] r] ++ warnOf r))
    (t : Trace) :
    ∃ es, (Down env p o t).2 = t ++ es ∧ Q (Down env p o t).1 es := by
  refine Down_rule env p o Q hnil hseq hwarn ?_ ?_ ?_ t
  · intro svc _ t
    exact downService_rule env p svc o.RemoveVolumes Q hnil hseq (hparseFail svc)
      (hparseOk svc) hrm t
  · intro s hs t
    exact downNetwork_rule env p s Q hnil hs (hnetFail s) (hnetAbsent s) (hnetPresent s) t
  · intro hrv s hs t
    exact downVolume_rule env p s Q hnil hs (hvolFail hrv s) (hvolAbsent hrv s)
      (hvolPresent hrv s) t

theorem containerArgs_take (rav : Bool) (c : Container) :
    (containerArgs rav c).take 2 = ["rm", "-f"] := by
  cases rav <;> rfl

theorem containerArgs_ne_network (rav : Bool) (c : Container) (n : String) :
    containerArgs rav c ≠ ["network", "rm", n] := by
  intro h
  have := congrArg (List.take 2) h
  rw [containerArgs_take] at this
  simp at this

theorem containerArgs_ne_volume (rav : Bool) (c : Container) (n : String) :
    containerArgs rav c ≠ ["volume", "rm", "-f", n] := by
  intro h
  have := congrArg (List.take 2) h
  rw [containerArgs_take] at this
  simp at this

theorem failure_warnOf {e : Event} {r : Option String} (h : e ∈ warnOf r) :
    e.failure = none := by
  obtain ⟨msg, _, rfl⟩ := mem_warnOf h
  rfl

theorem Guarded_nil : Guarded [] := by
  intro pre e post h
  simp at h

theorem Guarded_append {a b : Trace} (ha : Guarded a) (hb : Guarded b) :
    Guarded (a ++ b) := by
  intro pre e post h
  rcases List.append_eq_append_iff.1 h with ⟨a', hpre, hb'⟩ | ⟨c', ha', hc'⟩
  · obtain ⟨h1, h2⟩ := hb a' e post hb'
    refine ⟨?_, ?_⟩
    · intro n r he
      obtain ⟨pre', hp⟩ := h1 n r he
      exact ⟨a ++ pre', by rw [hpre, hp, List.append_assoc]⟩
    · intro n r he
      obtain ⟨pre', hp⟩ := h2 n r he
      exact ⟨a ++ pre', by rw [hpre, hp, List.append_assoc]⟩
  · cases c' with
    | nil =>
      obtain ⟨h1, h2⟩ := hb [] e post (by simpa using hc'.symm)
      refine ⟨?_, ?_⟩
      · intro n r he
        obtain ⟨pre', hp⟩ := h1 n r he
        simp at hp
      · intro n r he
        obtain ⟨pre', hp⟩ := h2 n r he
        simp at hp
    | cons c c'' =>
      simp only [List.cons_append, List.cons.injEq] at hc'
      obtain ⟨rfl, _⟩ := hc'
      exact ha pre e c'' ha'

theorem Guarded_singleton (e : Event)
    (h1 : ∀ n r, e ≠ Event.runNerdctlCmd ["network", "rm", n] r)
    (h2 : ∀ n r, e ≠ Event.runNerdctlCmd ["volume", "rm", "-f", n] r) : Guarded [e] := by
  intro pre e' post h
  rcases pre with _ | ⟨x, pre⟩
  · simp only [List.nil_append, List.cons.injEq] at h
    obtain ⟨rfl, _⟩ := h
    exact ⟨fun n r he => absurd he (h1 n r), fun n r he => absurd he (h2 n r)⟩
  · simp at h

theorem Guarded_pair (g e : Event)
    (hg1 : ∀ n r, g ≠ Event.runNerdctlCmd ["network", "rm", n] r)
    (hg2 : ∀ n r, g ≠ Event.runNerdctlCmd ["volume", "rm", "-f", n] r)
    (h1 : ∀ n r, e = Event.runNerdctlCmd ["network", "rm", n] r →
      g = Event.NetworkExists n (Answer.ok true))
    (h2 : ∀ n r, e = Event.runNerdctlCmd ["volume", "rm", "-f", n] r →
      g = Event.VolumeExists n (Answer.ok true)) : Guarded [g, e] := by
  intro pre e' post h
  rcases pre with _ | ⟨x, _ | ⟨y, pre⟩⟩
  · simp only [List.nil_append, List.cons.injEq] at h
    obtain ⟨rfl, _⟩ := h
    exact ⟨fun n r he => absurd he (hg1 n r), fun n r he => absurd he (hg2 n r)⟩
  · simp only [List.cons_append, List.nil_append, List.cons.injEq] at h
    obtain ⟨rfl, rfl, _⟩ := h
    exact ⟨fun n r he => ⟨[], by simp [h1 n r he]⟩,
      fun n r he => ⟨[], by simp [h2 n r he]⟩⟩
  · simp at h

theorem Warned_nil : Warned [] := by
  intro pre args msg post h
  simp at h

theorem Warned_append {a b : Trace} (ha : Warned a) (hb : Warned b) : Warned (a ++ b) := by
  intro pre args msg post h
  rcases List.append_eq_append_iff.1 h with ⟨a', _, hb'⟩ | ⟨c', ha', hc'⟩
  · exact hb a' args msg post hb'
  · cases c' with
    | nil =>
      exact hb [] args msg post (by simpa using hc'.symm)
    | cons c c'' =>
      simp only [List.cons_append, List.cons.injEq] at hc'
      obtain ⟨rfl, hpost⟩ := hc'
      obtain ⟨post', hp⟩ := ha pre args msg c'' ha'
      exact ⟨post' ++ b, by rw [hpost, hp]; rfl⟩

theorem Warned_of_no_failed_command (l : Trace)
    (h : ∀ e ∈ l, ∀ args msg, e ≠ Event.runNerdctlCmd args (some msg)) : Warned l := by
  intro pre args msg post hl
  exact absurd rfl (h (Event.runNerdctlCmd args (some msg)) (by simp [hl]) args msg)

theorem Warned_command (pre : Trace) (args : List String) (r : Option String)
    (hpre : ∀ e ∈ pre, ∀ args msg, e ≠ Event.runNerdctlCmd args (some msg)) :
    Warned (pre ++ ([Event.runNerdctlCmd args r] ++ warnOf r)) := by
  cases r with
  | none =>
    apply Warned_of_no_failed_command
    intro e he
    simp only [warnOf, List.append_nil, List.mem_append, List.mem_singleton] at he
    rcases he with he | rfl
    · exact hpre e he
    · simp
  | some m =>
    apply Warned_append (Warned_of_no_failed_command pre hpre)
    intro pre' args' msg post h
    rcases pre' with _ | ⟨x, _ | ⟨y, pre'⟩⟩
    · simp only [warnOf, List.singleton_append, List.nil_append, List.cons.injEq,
        Event.runNerdctlCmd.injEq, Option.some.injEq] at h
      obtain ⟨⟨_, rfl⟩, hpost⟩ := h
      exact ⟨[], hpost.symm⟩
    · simp [warnOf] at h
    · simp [warnOf] at h


theorem calls_cons (e : Event) (t : Trace) :
    calls (e :: t) = e.toCall.toList ++ calls t := by
  cases e <;> rfl

theorem removeContainers_indep (env1 env2 : Env) (rav : Bool) (cs : List Container) :
    ∀ t1 t2, calls t1 = calls t2 →
      calls (removeContainers env1 rav cs t1) = calls (removeContainers env2 rav cs t2) := by
  induction cs with
  | nil => intro t1 t2 h; simpa [removeContainers] using h
  | cons c rest ih =>
    intro t1 t2 h
    rw [removeContainers_cons, removeContainers_cons]
    apply ih
    simp [h, calls_cons, Event.toCall]

theorem downService_indep (env1 env2 : Env) (hP : env1.Parse = env2.Parse) (p : Project)
    (svc : ServiceConfig) (rav : Bool) (t1 t2 : Trace) (h : calls t1 = calls t2) :
    (downService env1 p svc rav t1).1 = (downService env2 p svc rav t2).1 ∧
    calls (downService env1 p svc rav t1).2 = calls (downService env2 p svc rav t2).2 := by
  unfold downService
  simp only [hP, h]
  cases env2.Parse (calls t2) p svc with
  | error msg => simp [h, calls_cons, Event.toCall]
  | ok ps =>
    refine ⟨rfl, ?_⟩
    apply removeContainers_indep
    simp [h, calls_cons, Event.toCall]

theorem downNetwork_indep (env1 env2 : Env) (hN : env1.NetworkExists = env2.NetworkExists)
    (p : Project) (s : String) (t1 t2 : Trace) (h : calls t1 = calls t2) :
    (downNetwork env1 p s t1).1 = (downNetwork env2 p s t2).1 ∧
    calls (downNetwork env1 p s t1).2 = calls (downNetwork env2 p s t2).2 := by
  rcases downNetwork_cases env1 p s t1 with ⟨hl, e1⟩ | ⟨net, hl, hx, e1⟩ |
    ⟨net, msg, hl, hx, hp, e1⟩ | ⟨net, hl, hx, hp, e1⟩ | ⟨net, r, hl, hx, hp, e1⟩ <;>
  rcases downNetwork_cases env2 p s t2 with ⟨hl', e2⟩ | ⟨net', hl', hx', e2⟩ |
    ⟨net', msg', hl', hx', hp', e2⟩ | ⟨net', hl', hx', hp', e2⟩ |
    ⟨net', r', hl', hx', hp', e2⟩ <;>
  rw [e1, e2] <;> simp_all [calls_cons, Event.toCall]


theorem downVolume_indep (env1 env2 : Env) (hV : env1.VolumeExists = env2.VolumeExists)
    (p : Project) (s : String) (t1 t2 : Trace) (h : calls t1 = calls t2) :
    (downVolume env1 p s t1).1 = (downVolume env2 p s t2).1 ∧
    calls (downVolume env1 p s t1).2 = calls (downVolume env2 p s t2).2 := by
  rcases downVolume_cases env1 p s t1 with ⟨hl, e1⟩ | ⟨vol, hl, hx, e1⟩ |
    ⟨vol, msg, hl, hx, hp, e1⟩ | ⟨vol, hl, hx, hp, e1⟩ | ⟨vol, r, hl, hx, hp, e1⟩ <;>
  rcases downVolume_cases env2 p s t2 with ⟨hl', e2⟩ | ⟨vol', hl', hx', e2⟩ |
    ⟨vol', msg', hl', hx', hp', e2⟩ | ⟨vol', hl', hx', hp', e2⟩ |
    ⟨vol', r', hl', hx', hp', e2⟩ <;>
  rw [e1, e2] <;> simp_all [calls_cons, Event.toCall]

/-- Two loops whose rounds return the same value and make the same calls do so
as a whole. -/
theorem forRange_indep {α : Type} (b1 b2 : α → Trace → Option Error × Trace)
    (xs : List α)
    (hb : ∀ x ∈ xs, ∀ t1 t2, calls t1 = calls t2 →
      (b1 x t1).1 = (b2 x t2).1 ∧ calls (b1 x t1).2 = calls (b2 x t2).2) :
    ∀ t1 t2, calls t1 = calls t2 →
      (forRange b1 xs t1).1 = (forRange b2 xs t2).1 ∧
      calls (forRange b1 xs t1).2 = calls (forRange b2 xs t2).2 := by
  induction xs with
  | nil => intro t1 t2 h; simpa [forRange] using h
  | cons x rest ih =>
    intro t1 t2 h
    obtain ⟨hr, hc⟩ := hb x (List.mem_cons_self _ _) t1 t2 h
    cases h1 : b1 x t1 with
    | mk r1 u1 =>
      cases h2 : b2 x t2 with
      | mk r2 u2 =>
        rw [h1, h2] at hr hc
        simp only at hr hc
        subst hr
        cases r1 with
        | some err => simpa [forRange, h1, h2] using hc
        | none =>
          simpa [forRange, h1, h2] using
            ih (fun x hx => hb x (List.mem_cons_of_mem _ hx)) u1 u2 hc

theorem warnUnknown_calls (env : Env) (p : Project) (t : Trace) :
    calls (warnUnknown env p t) = calls t := by
  rcases warnUnknown_cases env p t with h | h <;> rw [h]
  simp [calls_cons, Event.toCall]

/-- Two runtimes that differ only in what `runNerdctlCmd` returns make `Down`
return the same value and issue the same collaborator calls. -/
theorem Down_indep (env1 env2 : Env) (hP : env1.Parse = env2.Parse)
    (hN : env1.NetworkExists = env2.NetworkExists)
    (hV : env1.VolumeExists = env2.VolumeExists) (p : Project) (o : DownOptions)
    (t1 t2 : Trace) (h : calls t1 = calls t2) :
    (Down env1 p o t1).1 = (Down env2 p o t2).1 ∧
    calls (Down env1 p o t1).2 = calls (Down env2 p o t2).2 := by
  have h0 : calls (warnUnknown env1 p t1) = calls (warnUnknown env2 p t2) := by
    rw [warnUnknown_calls, warnUnknown_calls, h]
  obtain ⟨hr1, hc1⟩ := forRange_indep
    (fun svc => downService env1 p svc o.RemoveVolumes)
    (fun svc => downService env2 p svc o.RemoveVolumes) p.Services
    (fun svc _ u1 u2 hu => downService_indep env1 env2 hP p svc o.RemoveVolumes u1 u2 hu)
    _ _ h0
  unfold Down
  simp only
  cases hb1 : forRange (fun svc => downService env1 p svc o.RemoveVolumes) p.Services
      (warnUnknown env1 p t1) with
  | mk r1 u1 =>
    cases hb1' : forRange (fun svc => downService env2 p svc o.RemoveVolumes) p.Services
        (warnUnknown env2 p t2) with
    | mk r1' u1' =>
      rw [hb1, hb1'] at hr1 hc1
      simp only at hr1 hc1
      subst hr1
      cases r1 with
      | some err => exact ⟨rfl, hc1⟩
      | none =>
        simp only
        obtain ⟨hr2, hc2⟩ := forRange_indep
          (fun s => downNetwork env1 p s) (fun s => downNetwork env2 p s)
          (p.Networks.map Prod.fst)
          (fun s _ v1 v2 hv => downNetwork_indep env1 env2 hN p s v1 v2 hv) u1 u1' hc1
        cases hb2 : forRange (fun s => downNetwork env1 p s) (p.Networks.map Prod.fst) u1 with
        | mk r2 u2 =>
          cases hb2' : forRange (fun s => downNetwork env2 p s)
              (p.Networks.map Prod.fst) u1' with
          | mk r2' u2' =>
            rw [hb2, hb2'] at hr2 hc2
            simp only at hr2 hc2
            subst hr2
            cases r2 with
            | some err => exact ⟨rfl, hc2⟩
            | none =>
              simp only
              cases hrv : o.RemoveVolumes with
              | false => exact ⟨rfl, hc2⟩
              | true =>
                simp only [if_true]
                obtain ⟨hr3, hc3⟩ := forRange_indep
                  (fun s => downVolume env1 p s) (fun s => downVolume env2 p s)
                  (p.Volumes.map Prod.fst)
                  (fun s _ v1 v2 hv => downVolume_indep env1 env2 hV p s v1 v2 hv)
                  u2 u2' hc2
                cases hb3 : forRange (fun s => downVolume env1 p s)
                    (p.Volumes.map Prod.fst) u2 with
                | mk r3 u3 =>
                  cases hb3' : forRange (fun s => downVolume env2 p s)
                      (p.Volumes.map Prod.fst) u2' with
                  | mk r3' u3' =>
                    rw [hb3, hb3'] at hr3 hc3
                    simp only at hr3 hc3
                    subst hr3
                    cases r3 with
                    | some err => exact ⟨rfl, hc3⟩
                    | none => exact ⟨rfl, hc3⟩

theorem NoVolume_nil : NoVolume [] := by
  intro e he; simp at he

theorem NoVolume_append {a b : Trace} (ha : NoVolume a) (hb : NoVolume b) :
    NoVolume (a ++ b) := by
  intro e he
  rcases List.mem_append.1 he with he | he
  · exact ha e he
  · exact hb e he

theorem NoVolume_warnOf (r : Option String) : NoVolume (warnOf r) := by
  intro e he
  obtain ⟨msg, _, rfl⟩ := mem_warnOf he
  simp

theorem downService_noVolume (env : Env) (p : Project) (svc : ServiceConfig) (rav : Bool)
    (t : Trace) : ∃ es, (downService env p svc rav t).2 = t ++ es ∧ NoVolume es := by
  refine downService_rule env p svc rav (fun _ es => NoVolume es) NoVolume_nil
    (fun a r b ha hb => NoVolume_append ha hb) ?_ ?_ ?_ t
  · intro msg e he; simp at he; subst he; simp
  · intro ps e he; simp at he; subst he; simp
  · intro c r
    refine NoVolume_append ?_ (NoVolume_warnOf r)
    intro e he
    simp at he
    rcases he with rfl | rfl
    · simp
    · simp [containerArgs_take]

theorem downNetwork_noVolume (env : Env) (p : Project) (s : String) (t : Trace) :
    ∃ es, (downNetwork env p s t).2 = t ++ es ∧ NoVolume es := by
  rcases downNetwork_cases env p s t with ⟨_, h⟩ | ⟨net, _, _, h⟩ |
    ⟨net, msg, _, _, _, h⟩ |
    ⟨net, _, _, _, h⟩ | ⟨net, r, _, _, _, h⟩ <;> rw [h]
  · exact ⟨[], by simp, NoVolume_nil⟩
  · exact ⟨[], by simp, NoVolume_nil⟩
  · refine ⟨_, rfl, ?_⟩
    intro e he; simp at he; subst he; simp
  · refine ⟨_, rfl, ?_⟩
    intro e he; simp at he; subst he; simp
  · refine ⟨_, rfl, NoVolume_append ?_ (NoVolume_warnOf r)⟩
    intro e he
    simp at he
    rcases he with rfl | rfl | rfl <;> simp

/-- A loop whose round for `s` fails after the rounds before it succeeded
returns the error of that round and stops there. -/
theorem forRange_stops {α : Type} (body : α → Trace → Option Error × Trace)
    (before : List α) (s : α) (after : List α) (err : Error) :
    ∀ t1 t2 t3, forRange body before t1 = (none, t2) → body s t2 = (some err, t3) →
      forRange body (before ++ s :: after) t1 = (some err, t3) := by
  induction before with
  | nil =>
    intro t1 t2 t3 h1 h2
    simp only [forRange, Prod.mk.injEq, true_and] at h1
    subst h1
    simp [forRange, h2]
  | cons x rest ih =>
    intro t1 t2 t3 h1 h2
    cases hb : body x t1 with
    | mk r u =>
      cases r with
      | some e => simp [forRange, hb] at h1
      | none =>
        simp only [forRange, hb] at h1
        simpa [forRange, hb] using ih u t2 t3 h1 h2

@[simp] theorem parses_append (a b : Trace) : parses (a ++ b) = parses a ++ parses b := by
  simp [parses]

@[simp] theorem networkProbes_append (a b : Trace) :
    networkProbes (a ++ b) = networkProbes a ++ networkProbes b := by
  simp [networkProbes]

@[simp] theorem volumeProbes_append (a b : Trace) :
    volumeProbes (a ++ b) = volumeProbes a ++ volumeProbes b := by
  simp [volumeProbes]

@[simp] theorem containerBlock_append (rav : Bool) (a b : Trace) :
    containerBlock rav (a ++ b) = containerBlock rav a ++ containerBlock rav b := by
  simp [containerBlock]

@[simp] theorem networkBlock_append (a b : Trace) :
    networkBlock (a ++ b) = networkBlock a ++ networkBlock b := by
  simp [networkBlock]

@[simp] theorem volumeBlock_append (a b : Trace) :
    volumeBlock (a ++ b) = volumeBlock a ++ volumeBlock b := by
  simp [volumeBlock]

theorem Quiet_nil : Quiet [] := ⟨rfl, rfl, rfl⟩

theorem Quiet_append {a b : Trace} (ha : Quiet a) (hb : Quiet b) : Quiet (a ++ b) := by
  obtain ⟨a1, a2, a3⟩ := ha
  obtain ⟨b1, b2, b3⟩ := hb
  exact ⟨by simp [a1, b1], by simp [a2, b2], by simp [a3, b3]⟩

theorem Quiet_warnOf (r : Option String) : Quiet (warnOf r) := by
  cases r <;> exact ⟨rfl, rfl, rfl⟩

theorem Quiet_blocks {es : Trace} (h : Quiet es) (rav : Bool) :
    containerBlock rav es = [] ∧ networkBlock es = [] ∧ volumeBlock es = [] := by
  obtain ⟨h1, h2, h3⟩ := h
  simp [containerBlock, networkBlock, volumeBlock, h1, h2, h3]

theorem containerBlock_eq_nil (rav : Bool) {es : Trace} (h : parses es = []) :
    containerBlock rav es = [] := by
  simp [containerBlock, h]

theorem networkBlock_eq_nil {es : Trace} (h : networkProbes es = []) :
    networkBlock es = [] := by
  simp [networkBlock, h]

theorem volumeBlock_eq_nil {es : Trace} (h : volumeProbes es = []) :
    volumeBlock es = [] := by
  simp [volumeBlock, h]

/-- The container loop adds one command per container and no expansion or
probe. -/
theorem removeContainers_quiet (env : Env) (rav : Bool) (cs : List Container) (t : Trace) :
    ∃ es, removeContainers env rav cs t = t ++ es ∧
      commands es = cs.map (containerArgs rav) ∧ Quiet es ∧
      ∀ e ∈ es, e.failure = none := by
  obtain ⟨es, hes, hc⟩ := removeContainers_commands env rav cs t
  obtain ⟨es', hes', hq, hf⟩ := removeContainers_rule env rav
    (fun es => Quiet es ∧ ∀ e ∈ es, e.failure = none)
    ⟨Quiet_nil, by simp⟩
    (fun a b ha hb => ⟨Quiet_append ha.1 hb.1, by
      intro e he
      rcases List.mem_append.1 he with he | he
      · exact ha.2 e he
      · exact hb.2 e he⟩)
    cs
    (fun c _ r => ⟨Quiet_append ⟨rfl, rfl, rfl⟩ (Quiet_warnOf r), by
      intro e he
      rcases List.mem_append.1 he with he | he
      · simp at he
        rcases he with rfl | rfl <;> rfl
      · exact failure_warnOf he⟩)
    t
  have : es = es' := List.append_cancel_left (hes.symm.trans hes')
  subst this
  exact ⟨es, hes, hc, hq, hf⟩

/-- Rule for a loop that stops at the first error, for a relation that also
depends on the list the loop ranges over. -/
theorem forRange_rule_indexed {α : Type} (body : α → Trace → Option Error × Trace)
    (Q : List α → Option Error → Trace → Prop) (hnil : Q [] none [])
    (hstop : ∀ x rest err a, Q [x] (some err) a → Q (x :: rest) (some err) a)
    (hseq : ∀ x rest a r b, Q [x] none a → Q rest r b → Q (x :: rest) r (a ++ b))
    (xs : List α)
    (hbody : ∀ x ∈ xs, ∀ t, ∃ es, (body x t).2 = t ++ es ∧ Q [x] (body x t).1 es) :
    ∀ t, ∃ es, (forRange body xs t).2 = t ++ es ∧ Q xs (forRange body xs t).1 es := by
  induction xs with
  | nil => intro t; exact ⟨[], by simp [forRange], hnil⟩
  | cons x rest ih =>
    intro t
    obtain ⟨es, hes, hQ⟩ := hbody x (List.mem_cons_self _ _) t
    cases hb : body x t with
    | mk r t1 =>
      rw [hb] at hes hQ
      simp only at hes hQ
      subst hes
      cases r with
      | some err =>
        refine ⟨es, ?_, ?_⟩
        · simp [forRange, hb]
        · simpa [forRange, hb] using hstop x rest err es hQ
      | none =>
        obtain ⟨es2, hes2, hQ2⟩ :=
          ih (fun x hx => hbody x (List.mem_cons_of_mem _ hx)) (t ++ es)
        refine ⟨es ++ es2, ?_, ?_⟩
        · simp [forRange, hb, hes2]
        · simpa [forRange, hb] using hseq x rest es _ es2 hQ hQ2

theorem downService_phase (env : Env) (p : Project) (rav : Bool) (svc : ServiceConfig)
    (t : Trace) :
    ∃ es, (downService env p svc rav t).2 = t ++ es ∧
      ServicePhase rav [svc] (downService env p svc rav t).1 es := by
  rcases downService_cases env p svc rav t with ⟨msg, _, h⟩ | ⟨ps, _, h⟩
  · rw [h]
    refine ⟨_, rfl, rfl, rfl, rfl, by simp, ?_⟩
    intro err _
    exact ⟨_, List.mem_singleton_self _, by simp [Event.failure]⟩
  · rw [h]
    obtain ⟨es, hes, hc, ⟨hq1, hq2, hq3⟩, _⟩ := removeContainers_quiet env rav ps.Containers
      (t ++ [Event.Parse svc (Answer.ok ps)])
    refine ⟨[Event.Parse svc (Answer.ok ps)] ++ es, ?_, ?_, ?_, ?_, ?_, by simp⟩
    · simp only [hes, List.append_assoc]
    · rw [networkProbes_append, hq2]; rfl
    · rw [volumeProbes_append, hq3]; rfl
    · rw [commands_append, containerBlock_append, hc, containerBlock_eq_nil rav hq1]
      simp [commands, Event.command, containerBlock, parses]
    · intro _
      rw [parses_append, hq1]; rfl

theorem downNetwork_phase (env : Env) (p : Project) (s : String)
    (hkey : s ∈ p.Networks.map Prod.fst) (t : Trace) :
    ∃ es, (downNetwork env p s t).2 = t ++ es ∧
      NetworkPhase p [s] (downNetwork env p s t).1 es := by
  obtain ⟨v, hv⟩ := lookup_of_mem_keys p.Networks s hkey
  rcases downNetwork_cases env p s t with ⟨hl, _⟩ | ⟨net, hl, hx, h⟩ |
    ⟨net, msg, hl, hx, _, h⟩ | ⟨net, hl, hx, _, h⟩ | ⟨net, r, hl, hx, _, h⟩
  · rw [hl] at hv; cases hv
  · rw [h]
    exact ⟨[], by simp, rfl, rfl, rfl, by simp [networkProbes, ownedNetwork, hl, hx], by simp⟩
  · rw [h]
    refine ⟨_, rfl, rfl, rfl, rfl, by simp, ?_⟩
    intro err _
    exact ⟨_, List.mem_singleton_self _, by simp [Event.failure]⟩
  · rw [h]
    exact ⟨_, rfl, rfl, rfl, rfl, by simp [networkProbes, ownedNetwork, hl, hx], by simp⟩
  · rw [h]
    refine ⟨_, rfl, ?_, ?_, ?_, ?_, by simp⟩
    · rw [parses_append, (Quiet_warnOf r).1]; rfl
    · rw [volumeProbes_append, (Quiet_warnOf r).2.2]; rfl
    · rw [commands_append, commands_warnOf, networkBlock_append,
        (Quiet_blocks (Quiet_warnOf r) false).2.1]
      simp [commands, Event.command, networkBlock, networkProbes]
    · intro _
      rw [networkProbes_append, (Quiet_warnOf r).2.1]
      simp [networkProbes, ownedNetwork, hl, hx]

theorem downVolume_phase (env : Env) (p : Project) (s : String)
    (hkey : s ∈ p.Volumes.map Prod.fst) (t : Trace) :
    ∃ es, (downVolume env p s t).2 = t ++ es ∧
      VolumePhase p [s] (downVolume env p s t).1 es := by
  obtain ⟨v, hv⟩ := lookup_of_mem_keys p.Volumes s hkey
  rcases downVolume_cases env p s t with ⟨hl, _⟩ | ⟨vol, hl, hx, h⟩ |
    ⟨vol, msg, hl, hx, _, h⟩ | ⟨vol, hl, hx, _, h⟩ | ⟨vol, r, hl, hx, _, h⟩
  · rw [hl] at hv; cases hv
  · rw [h]
    exact ⟨[], by simp, rfl, rfl, rfl, by simp [volumeProbes, ownedVolume, hl, hx], by simp⟩
  · rw [h]
    refine ⟨_, rfl, rfl, rfl, rfl, by simp, ?_⟩
    intro err _
    exact ⟨_, List.mem_singleton_self _, by simp [Event.failure]⟩
  · rw [h]
    exact ⟨_, rfl, rfl, rfl, rfl, by simp [volumeProbes, ownedVolume, hl, hx], by simp⟩
  · rw [h]
    refine ⟨_, rfl, ?_, ?_, ?_, ?_, by simp⟩
    · rw [parses_append, (Quiet_warnOf r).1]; rfl
    · rw [networkProbes_append, (Quiet_warnOf r).2.1]; rfl
    · rw [commands_append, commands_warnOf, volumeBlock_append,
        (Quiet_blocks (Quiet_warnOf r) false).2.2]
      simp [commands, Event.command, volumeBlock, volumeProbes]
    · intro _
      rw [volumeProbes_append, (Quiet_warnOf r).2.2]
      simp [volumeProbes, ownedVolume, hl, hx]

theorem services_phase (env : Env) (p : Project) (rav : Bool) (svcs : List ServiceConfig)
    (t : Trace) :
    ∃ es, (forRange (fun svc => downService env p svc rav) svcs t).2 = t ++ es ∧
      ServicePhase rav svcs (forRange (fun svc => downService env p svc rav) svcs t).1 es := by
  refine forRange_rule_indexed (fun svc => downService env p svc rav) (ServicePhase rav)
    ⟨rfl, rfl, rfl, by simp [parses], by simp⟩ ?_ ?_ svcs
    (fun svc _ u => downService_phase env p rav svc u) t
  · rintro x rest err a ⟨h1, h2, h3, _, h5⟩
    exact ⟨h1, h2, h3, by simp, h5⟩
  · rintro x rest a r b ⟨a1, a2, a3, a4, _⟩ ⟨b1, b2, b3, b4, b5⟩
    refine ⟨by simp [a1, b1], by simp [a2, b2], by simp [a3, b3], ?_, ?_⟩
    · intro hr
      simp [a4 rfl, b4 hr]
    · intro err hr
      obtain ⟨e, he, hf⟩ := b5 err hr
      exact ⟨e, List.mem_append_right _ he, hf⟩

theorem networks_phase (env : Env) (p : Project) (ks : List String)
    (hks : ∀ s ∈ ks, s ∈ p.Networks.map Prod.fst) (t : Trace) :
    ∃ es, (forRange (fun s => downNetwork env p s) ks t).2 = t ++ es ∧
      NetworkPhase p ks (forRange (fun s => downNetwork env p s) ks t).1 es := by
  refine forRange_rule_indexed (fun s => downNetwork env p s) (NetworkPhase p)
    ⟨rfl, rfl, rfl, by simp [networkProbes], by simp⟩ ?_ ?_ ks
    (fun s hs u => downNetwork_phase env p s (hks s hs) u) t
  · rintro x rest err a ⟨h1, h2, h3, _, h5⟩
    exact ⟨h1, h2, h3, by simp, h5⟩
  · rintro x rest a r b ⟨a1, a2, a3, a4, _⟩ ⟨b1, b2, b3, b4, b5⟩
    refine ⟨by simp [a1, b1], by simp [a2, b2], by simp [a3, b3], ?_, ?_⟩
    · intro hr
      have ha := a4 rfl
      have hb := b4 hr
      rw [networkProbes_append, List.map_append, ha, hb, ← List.filterMap_append]
      rfl
    · intro err hr
      obtain ⟨e, he, hf⟩ := b5 err hr
      exact ⟨e, List.mem_append_right _ he, hf⟩

theorem volumes_phase (env : Env) (p : Project) (ks : List String)
    (hks : ∀ s ∈ ks, s ∈ p.Volumes.map Prod.fst) (t : Trace) :
    ∃ es, (forRange (fun s => downVolume env p s) ks t).2 = t ++ es ∧
      VolumePhase p ks (forRange (fun s => downVolume env p s) ks t).1 es := by
  refine forRange_rule_indexed (fun s => downVolume env p s) (VolumePhase p)
    ⟨rfl, rfl, rfl, by simp [volumeProbes], by simp⟩ ?_ ?_ ks
    (fun s hs u => downVolume_phase env p s (hks s hs) u) t
  · rintro x rest err a ⟨h1, h2, h3, _, h5⟩
    exact ⟨h1, h2, h3, by simp, h5⟩
  · rintro x rest a r b ⟨a1, a2, a3, a4, _⟩ ⟨b1, b2, b3, b4, b5⟩
    refine ⟨by simp [a1, b1], by simp [a2, b2], by simp [a3, b3], ?_, ?_⟩
    · intro hr
      have ha := a4 rfl
      have hb := b4 hr
      rw [volumeProbes_append, List.map_append, ha, hb, ← List.filterMap_append]
      rfl
    · intro err hr
      obtain ⟨e, he, hf⟩ := b5 err hr
      exact ⟨e, List.mem_append_right _ he, hf⟩

theorem commands_of_phases (rav : Bool) (es0 es1 es2 es3 : Trace)
    (q0 : Quiet es0) (c0 : commands es0 = [])
    (n1 : networkProbes es1 = []) (v1 : volumeProbes es1 = [])
    (c1 : commands es1 = containerBlock rav es1)
    (p2 : parses es2 = []) (v2 : volumeProbes es2 = [])
    (c2 : commands es2 = networkBlock es2)
    (p3 : parses es3 = []) (n3 : networkProbes es3 = [])
    (c3 : commands es3 = volumeBlock es3) :
    commands (es0 ++ es1 ++ es2 ++ es3) =
      containerBlock rav (es0 ++ es1 ++ es2 ++ es3) ++ networkBlock (es0 ++ es1 ++ es2 ++ es3) ++
        volumeBlock (es0 ++ es1 ++ es2 ++ es3) := by
  simp only [commands_append, containerBlock_append, networkBlock_append, volumeBlock_append,
    c0, c1, c2, c3, containerBlock_eq_nil rav q0.1, containerBlock_eq_nil rav p2,
    containerBlock_eq_nil rav p3, networkBlock_eq_nil q0.2.1, networkBlock_eq_nil n1,
    networkBlock_eq_nil n3, volumeBlock_eq_nil q0.2.2, volumeBlock_eq_nil v1,
    volumeBlock_eq_nil v2, List.append_nil, List.nil_append, List.append_assoc]

theorem warnUnknown_quiet (env : Env) (p : Project) (t : Trace) :
    ∃ es0, warnUnknown env p t = t ++ es0 ∧ Quiet es0 ∧ commands es0 = [] ∧
      ∀ e ∈ es0, e.failure = none := by
  rcases warnUnknown_cases env p t with h | h
  · exact ⟨[], by simp [h], Quiet_nil, rfl, by simp⟩
  · exact ⟨_, h, ⟨rfl, rfl, rfl⟩, rfl, by simp [Event.failure]⟩

/-- The events of a run of `Down`, block by block. -/
theorem Down_blocks (env : Env) (p : Project) (o : DownOptions) (t : Trace) :
    ∃ es, (Down env p o t).2 = t ++ es ∧ DownBlocks p o (Down env p o t).1 es := by
  obtain ⟨es0, h0, q0, c0, _⟩ := warnUnknown_quiet env p t
  obtain ⟨es1, h1, n1, v1, c1, s1, f1⟩ :=
    services_phase env p o.RemoveVolumes p.Services (warnUnknown env p t)
  unfold Down
  simp only
  cases hb1 : forRange (fun svc => downService env p svc o.RemoveVolumes) p.Services
      (warnUnknown env p t) with
  | mk r1 t1 =>
    rw [hb1] at h1 s1 f1
    simp only at h1 s1 f1
    cases r1 with
    | some err =>
      refine ⟨es0 ++ es1, by simp [h1, h0], ?_, by simp, ?_⟩
      · simpa using commands_of_phases o.RemoveVolumes es0 es1 [] [] q0 c0 n1 v1 c1
          rfl rfl rfl rfl rfl rfl
      · intro err' herr
        obtain ⟨e, he, hf⟩ := f1 err' herr
        exact ⟨e, List.mem_append_right _ he, hf⟩
    | none =>
      obtain ⟨es2, h2, p2, v2, c2, s2, f2⟩ :=
        networks_phase env p (p.Networks.map Prod.fst) (fun s hs => hs) t1
      simp only
      cases hb2 : forRange (fun s => downNetwork env p s) (p.Networks.map Prod.fst) t1 with
      | mk r2 t2 =>
        rw [hb2] at h2 s2 f2
        simp only at h2 s2 f2
        cases r2 with
        | some err =>
          refine ⟨es0 ++ es1 ++ es2, by simp [h2, h1, h0], ?_, by simp, ?_⟩
          · simpa using commands_of_phases o.RemoveVolumes es0 es1 es2 [] q0 c0 n1 v1 c1
              p2 v2 c2 rfl rfl rfl
          · intro err' herr
            obtain ⟨e, he, hf⟩ := f2 err' herr
            exact ⟨e, List.mem_append_right _ he, hf⟩
        | none =>
          simp only
          cases hrv : o.RemoveVolumes with
          | false =>
            rw [hrv] at c1
            refine ⟨es0 ++ es1 ++ es2, by simp [h2, h1, h0], ?_, ?_, by simp⟩
            · simpa [hrv] using commands_of_phases false es0 es1 es2 [] q0 c0 n1 v1 c1
                p2 v2 c2 rfl rfl rfl
            · intro _
              refine ⟨?_, ?_, ?_⟩
              · simp [q0.1, p2, s1 rfl]
              · simp [q0.2.1, n1, s2 rfl, ownedNetworks]
              · simp [q0.2.2, v1, v2, hrv]
          | true =>
            rw [hrv] at c1
            obtain ⟨es3, h3, p3, n3, c3, s3, f3⟩ :=
              volumes_phase env p (p.Volumes.map Prod.fst) (fun s hs => hs) t2
            simp only [if_true]
            cases hb3 : forRange (fun s => downVolume env p s) (p.Volumes.map Prod.fst) t2 with
            | mk r3 t3 =>
              rw [hb3] at h3 s3 f3
              simp only at h3 s3 f3
              have hc := commands_of_phases true es0 es1 es2 es3 q0 c0 n1 v1 c1
                p2 v2 c2 p3 n3 c3
              have hres : DownBlocks p o r3 (es0 ++ es1 ++ es2 ++ es3) := by
                refine ⟨by rw [hrv]; exact hc, ?_, ?_⟩
                · intro hr
                  refine ⟨?_, ?_, ?_⟩
                  · simp [q0.1, p2, p3, s1 rfl]
                  · simp [q0.2.1, n1, n3, s2 rfl, ownedNetworks]
                  · simp [q0.2.2, v1, v2, s3 hr, ownedVolumes, hrv]
                · intro err' herr
                  obtain ⟨e, he, hf⟩ := f3 err' herr
                  exact ⟨e, List.mem_append_right _ he, hf⟩
              cases r3 with
              | some err => exact ⟨es0 ++ es1 ++ es2 ++ es3, by simp [h3, h2, h1, h0], hres⟩
              | none => exact ⟨es0 ++ es1 ++ es2 ++ es3, by simp [h3, h2, h1, h0], hres⟩

/-- In an association list with distinct keys, every entry is found under its
key. -/
theorem lookup_of_mem_nodup {β : Type} (l : List (String × β))
    (h : (l.map Prod.fst).Nodup) : ∀ kv ∈ l, l.lookup kv.1 = some kv.2 := by
  induction l with
  | nil => intro kv hkv; simp at hkv
  | cons x rest ih =>
    obtain ⟨k, v⟩ := x
    simp only [List.map_cons, List.nodup_cons] at h
    intro kv hkv
    rcases List.mem_cons.1 hkv with rfl | hkv
    · simp [List.lookup]
    · have hne : kv.1 ≠ k := by
        intro hk
        exact h.1 (hk ▸ List.mem_map_of_mem Prod.fst hkv)
      have hne' : (kv.1 == k) = false := by simpa using hne
      simp [List.lookup, hne', ih h.2 kv hkv]

theorem filterMap_unless {α β : Type} (l : List α) (c : α → Bool) (f : α → β) :
    l.filterMap (fun a => if c a then none else some (f a)) =
      (l.filter (fun a => !c a)).map f := by
  induction l with
  | nil => rfl
  | cons a rest ih =>
    cases h : c a <;> simp [List.filterMap_cons, List.filter_cons, h, ih]

/-- With distinct short names, the owned networks are the definitions that are
not external. -/
theorem ownedNetworks_of_nodup (p : Project) (h : (p.Networks.map Prod.fst).Nodup) :
    ownedNetworks p =
      (p.Networks.filter (fun kv => !kv.2.External.External)).map (fun kv => kv.2.Name) := by
  rw [← filterMap_unless, ownedNetworks, List.filterMap_map]
  apply List.filterMap_congr
  intro kv hkv
  simp [ownedNetwork, lookup_of_mem_nodup p.Networks h kv hkv]

/-- With distinct short names, the owned volumes are the definitions that are
not external. -/
theorem ownedVolumes_of_nodup (p : Project) (h : (p.Volumes.map Prod.fst).Nodup) :
    ownedVolumes p =
      (p.Volumes.filter (fun kv => !kv.2.External.External)).map (fun kv => kv.2.Name) := by
  rw [← filterMap_unless, ownedVolumes, List.filterMap_map]
  apply List.filterMap_congr
  intro kv hkv
  simp [ownedVolume, lookup_of_mem_nodup p.Volumes h kv hkv]

/-- Rule for a loop that stops at the first error, for a relation that also
depends on the trace at which the piece of code starts. -/
theorem forRange_rule_at {α : Type} (body : α → Trace → Option Error × Trace)
    (Q : Trace → Option Error → Trace → Prop) (hnil : ∀ t, Q t none [])
    (hseq : ∀ t a r b, Q t none a → Q (t ++ a) r b → Q t r (a ++ b)) (xs : List α)
    (hbody : ∀ x ∈ xs, ∀ t, ∃ es, (body x t).2 = t ++ es ∧ Q t (body x t).1 es) :
    ∀ t, ∃ es, (forRange body xs t).2 = t ++ es ∧ Q t (forRange body xs t).1 es := by
  induction xs with
  | nil => intro t; exact ⟨[], by simp [forRange], hnil t⟩
  | cons x rest ih =>
    intro t
    obtain ⟨es, hes, hQ⟩ := hbody x (List.mem_cons_self _ _) t
    cases hb : body x t with
    | mk r t1 =>
      rw [hb] at hes hQ
      simp only at hes hQ
      subst hes
      cases r with
      | some err =>
        refine ⟨es, ?_, ?_⟩
        · simp [forRange, hb]
        · simpa [forRange, hb] using hQ
      | none =>
        obtain ⟨es2, hes2, hQ2⟩ :=
          ih (fun x hx => hbody x (List.mem_cons_of_mem _ hx)) (t ++ es)
        refine ⟨es ++ es2, ?_, ?_⟩
        · simp [forRange, hb, hes2]
        · simpa [forRange, hb] using hseq t es _ es2 hQ hQ2

/-- Rule for `Down`, for a relation that also depends on the trace at which the
piece of code starts. -/
theorem Down_rule_at (env : Env) (p : Project) (o : DownOptions)
    (Q : Trace → Option Error → Trace → Prop) (hnil : ∀ t, Q t none [])
    (hseq : ∀ t a r b, Q t none a → Q (t ++ a) r b → Q t r (a ++ b))
    (hwarn : ∀ t f u, Q t none [Event.Warnf f u])
    (hsvc : ∀ svc ∈ p.Services, ∀ t, ∃ es,
      (downService env p svc o.RemoveVolumes t).2 = t ++ es ∧
      Q t (downService env p svc o.RemoveVolumes t).1 es)
    (hnet : ∀ s ∈ p.Networks.map Prod.fst, ∀ t, ∃ es,
      (downNetwork env p s t).2 = t ++ es ∧ Q t (downNetwork env p s t).1 es)
    (hvol : o.RemoveVolumes = true → ∀ s ∈ p.Volumes.map Prod.fst, ∀ t, ∃ es,
      (downVolume env p s t).2 = t ++ es ∧ Q t (downVolume env p s t).1 es)
    (t : Trace) :
    ∃ es, (Down env p o t).2 = t ++ es ∧ Q t (Down env p o t).1 es := by
  have h0 : ∃ es0, warnUnknown env p t = t ++ es0 ∧ Q t none es0 := by
    rcases warnUnknown_cases env p t with h | h
    · exact ⟨[], by simp [h], hnil t⟩
    · exact ⟨_, h, hwarn t _ _⟩
  obtain ⟨es0, h0, hQ0⟩ := h0
  obtain ⟨es1, h1, hQ1⟩ := forRange_rule_at
    (fun svc => downService env p svc o.RemoveVolumes) Q hnil hseq p.Services hsvc
    (warnUnknown env p t)
  unfold Down
  simp only
  cases hb1 : forRange (fun svc => downService env p svc o.RemoveVolumes) p.Services
      (warnUnknown env p t) with
  | mk r1 t1 =>
    rw [hb1] at h1 hQ1
    simp only at h1 hQ1
    rw [h0] at h1 hQ1
    have hQ01 : Q t r1 (es0 ++ es1) := hseq t es0 r1 es1 hQ0 hQ1
    cases r1 with
    | some err =>
      exact ⟨es0 ++ es1, by simp [h1], hQ01⟩
    | none =>
      obtain ⟨es2, h2, hQ2⟩ := forRange_rule_at
        (fun s => downNetwork env p s) Q hnil hseq (p.Networks.map Prod.fst) hnet t1
      simp only
      cases hb2 : forRange (fun s => downNetwork env p s) (p.Networks.map Prod.fst) t1 with
      | mk r2 t2 =>
        rw [hb2] at h2 hQ2
        simp only at h2 hQ2
        have ht1 : t1 = t ++ (es0 ++ es1) := by rw [h1, List.append_assoc]
        rw [ht1] at h2 hQ2
        have hQ12 : Q t r2 (es0 ++ es1 ++ es2) := hseq t _ r2 es2 hQ01 hQ2
        cases r2 with
        | some err =>
          exact ⟨es0 ++ es1 ++ es2, by simp [h2], hQ12⟩
        | none =>
          simp only
          cases hrv : o.RemoveVolumes with
          | false =>
            exact ⟨es0 ++ es1 ++ es2, by simp [h2], by simpa using hQ12⟩
          | true =>
            obtain ⟨es3, h3, hQ3⟩ := forRange_rule_at
              (fun s => downVolume env p s) Q hnil hseq (p.Volumes.map Prod.fst)
              (hvol hrv) t2
            simp only [if_true]
            cases hb3 : forRange (fun s => downVolume env p s)
                (p.Volumes.map Prod.fst) t2 with
            | mk r3 t3 =>
              rw [hb3] at h3 hQ3
              simp only at h3 hQ3
              have ht2 : t2 = t ++ (es0 ++ es1 ++ es2) := by
                rw [h2, List.append_assoc]
              rw [ht2] at h3 hQ3
              have hQ123 : Q t r3 (es0 ++ es1 ++ es2 ++ es3) := hseq t _ r3 es3 hQ12 hQ3
              cases r3 with
              | some err =>
                exact ⟨es0 ++ es1 ++ es2 ++ es3, by simp [h3], hQ123⟩
              | none =>
                exact ⟨es0 ++ es1 ++ es2 ++ es3, by simp [h3], hQ123⟩

/-- A trace that records no expansion does not hold one. -/
theorem not_parse_of_parses_nil {es : Trace} (h : parses es = []) (pre : Trace)
    (svc : ServiceConfig) (res : Answer Service) (post : Trace) :
    es ≠ pre ++ Event.Parse svc res :: post := by
  intro hes
  rw [hes] at h
  simp [parses] at h

theorem ServiceCalls_of_parses_nil (env : Env) (p : Project) (rav : Bool) (t0 : Trace)
    {es : Trace} (h : parses es = []) : ServiceCalls env p rav t0 es := by
  intro pre svc res post hes
  exact absurd hes (not_parse_of_parses_nil h pre svc res post)

theorem ServiceCalls_append (env : Env) (p : Project) (rav : Bool) (t0 : Trace)
    {a b : Trace} (ha : ServiceCalls env p rav t0 a)
    (hb : ServiceCalls env p rav (t0 ++ a) b) : ServiceCalls env p rav t0 (a ++ b) := by
  intro pre svc res post h
  rcases List.append_eq_append_iff.1 h with ⟨a', hpre, hb'⟩ | ⟨c', ha', hc'⟩
  · obtain ⟨cs, post', hp, hd, hc⟩ := hb a' svc res post hb'
    refine ⟨cs, post', hp, ?_, hc⟩
    rw [hpre, ← List.append_assoc]
    exact hd
  · cases c' with
    | nil =>
      obtain ⟨cs, post', hp, hd, hc⟩ := hb [] svc res post (by simpa using hc'.symm)
      refine ⟨cs, post', hp, ?_, hc⟩
      have hpa : pre = a := by simpa using ha'.symm
      rw [hpa]
      simpa using hd
    | cons c c'' =>
      simp only [List.cons_append, List.cons.injEq] at hc'
      obtain ⟨rfl, hpost⟩ := hc'
      obtain ⟨cs, post', hp, hd, hc⟩ := ha pre svc res c'' ha'
      exact ⟨cs, post' ++ b, by rw [hpost, hp, List.append_assoc], hd, hc⟩

theorem downService_serviceCalls (env : Env) (p : Project) (svc : ServiceConfig) (rav : Bool)
    (t : Trace) :
    ∃ es, (downService env p svc rav t).2 = t ++ es ∧ ServiceCalls env p rav t es := by
  rcases downService_cases env p svc rav t with ⟨msg, _, h⟩ | ⟨ps, _, h⟩
  · refine ⟨[Event.Parse svc (Answer.error msg)], by rw [h], ?_⟩
    intro pre svc' res post hes
    rcases pre with _ | ⟨x, pre⟩
    · simp only [List.nil_append, List.cons.injEq] at hes
      obtain ⟨hE, hpost⟩ := hes
      cases hE
      refine ⟨[], [], by simp [← hpost], ?_, rfl⟩
      rw [List.append_nil, h]
    · simp at hes
  · obtain ⟨cs0, hcs, hc, hq, _⟩ := removeContainers_quiet env rav ps.Containers
      (t ++ [Event.Parse svc (Answer.ok ps)])
    have hd : (downService env p svc rav t).2 = t ++ Event.Parse svc (Answer.ok ps) :: cs0 := by
      rw [h]; simp [hcs]
    refine ⟨Event.Parse svc (Answer.ok ps) :: cs0, hd, ?_⟩
    intro pre svc' res post hes
    rcases pre with _ | ⟨x, pre⟩
    · simp only [List.nil_append, List.cons.injEq] at hes
      obtain ⟨hE, hpost⟩ := hes
      cases hE
      refine ⟨cs0, [], by simp [hpost], ?_, ?_⟩
      · rw [List.append_nil]; exact hd
      · rw [hc]; simp [containerArgs]
    · simp only [List.cons_append, List.cons.injEq] at hes
      exact absurd hes.2 (not_parse_of_parses_nil hq.1 pre svc' res post)

/-- Every expansion in a run of `Down` opens a `downService` call made with
`downOptions.RemoveVolumes`. -/
theorem Down_serviceCalls (env : Env) (p : Project) (o : DownOptions) (t : Trace) :
    ∃ es, (Down env p o t).2 = t ++ es ∧ ServiceCalls env p o.RemoveVolumes t es := by
  refine Down_rule_at env p o (fun t _ es => ServiceCalls env p o.RemoveVolumes t es)
    (fun t => ServiceCalls_of_parses_nil env p _ t rfl)
    (fun t a _ b ha hb => ServiceCalls_append env p _ t ha hb)
    (fun t f u => ServiceCalls_of_parses_nil env p _ t rfl)
    (fun svc _ t => downService_serviceCalls env p svc o.RemoveVolumes t)
    ?_ ?_ t
  · intro s hs t
    obtain ⟨es, hes, hp, _⟩ := downNetwork_phase env p s hs t
    exact ⟨es, hes, ServiceCalls_of_parses_nil env p _ t hp⟩
  · intro _ s hs t
    obtain ⟨es, hes, hp, _⟩ := downVolume_phase env p s hs t
    exact ⟨es, hes, ServiceCalls_of_parses_nil env p _ t hp⟩

/-! ## The claims -/

/-- C1: whatever `runNerdctlCmd` returns (the runtime `env.withRun run'` answers
expansions and probes as `env` does and commands as `run'` does), `Down`
returns the same value and makes the same sequence of collaborator calls
(expansions, probes and removal commands); and in every run each failed command
is directly followed by the warning that logs its error, nothing else being
done about it. -/
theorem C1_removal_failures_are_only_warned_about (env : Env)
    (run' : List Call → List String → Option String)
    (p : Project) (o : DownOptions) (t : Trace) :
    (Down (env.withRun run') p o t).1 = (Down env p o t).1 ∧
    calls (Down (env.withRun run') p o t).2 = calls (Down env p o t).2 ∧
    ∃ es, (Down env p o t).2 = t ++ es ∧
      ∀ pre args msg post, es = pre ++ Event.runNerdctlCmd args (some msg) :: post →
        ∃ post', post = Event.Warn (Error.collaborator msg) :: post' := by
  obtain ⟨h1, h2⟩ := Down_indep (env.withRun run') env rfl rfl rfl p o t t rfl
  refine ⟨h1, h2, ?_⟩
  obtain ⟨es, hes, hQ⟩ := Down_pieces env p o (fun _ es => Warned es)
    Warned_nil (fun a r b ha hb => Warned_append ha hb)
    (fun f u => Warned_of_no_failed_command _ (by simp))
    (fun svc msg => Warned_of_no_failed_command _ (by simp))
    (fun svc ps => Warned_of_no_failed_command _ (by simp))
    (fun c r => Warned_command [Event.Infof "Removing container %s" c.Name] _ r (by simp))
    (fun s net msg _ _ => Warned_of_no_failed_command _ (by simp))
    (fun s net _ _ => Warned_of_no_failed_command _ (by simp))
    (fun s net r _ _ => Warned_command [Event.NetworkExists net.Name (Answer.ok true),
      Event.Infof "Removing network %s" net.Name] _ r (by simp))
    (fun _ s vol msg _ _ => Warned_of_no_failed_command _ (by simp))
    (fun _ s vol _ _ => Warned_of_no_failed_command _ (by simp))
    (fun _ s vol r _ _ => Warned_command [Event.VolumeExists vol.Name (Answer.ok true),
      Event.Infof "Removing volume %s" vol.Name] _ r (by simp))
    t
  exact ⟨es, hes, hQ⟩

/-- C1 at `projDemo` in `envThree`, where the removal of `P_web_2` fails: `Down`
returns nil and makes the calls it makes when no command fails; the third
container and the network are still removed. -/
theorem C1_witness_failed_container_removal :
    (Down (envThree.withRun (fun _ _ => none)) projDemo ⟨false⟩ []).1 = none ∧
    calls (Down (envThree.withRun (fun _ _ => none)) projDemo ⟨false⟩ []).2 =
      [Call.Parse ⟨"web"⟩,
       Call.runNerdctlCmd ["rm", "-f", "P_web_1"],
       Call.runNerdctlCmd ["rm", "-f", "P_web_2"],
       Call.runNerdctlCmd ["rm", "-f", "P_web_3"],
       Call.NetworkExists "P_default",
       Call.runNerdctlCmd ["network", "rm", "P_default"]] ∧
    Event.runNerdctlCmd ["rm", "-f", "P_web_2"] (some "exit status 1") ∈
      (Down envThree projDemo ⟨false⟩ []).2 :=
  ⟨(C1_removal_failures_are_only_warned_about envThree (fun _ _ => none) projDemo
      ⟨false⟩ []).1.trans (by decide),
   (C1_removal_failures_are_only_warned_about envThree (fun _ _ => none) projDemo
      ⟨false⟩ []).2.1.trans (by decide),
   by decide⟩

/-- C2 as first stated fails: in `projShared` the network definition `front` is
external and resolves to the full name `shared`, the short names are distinct,
and `Down` nevertheless probes `shared` and issues `network rm shared`, on
behalf of the owned definition `back` that resolves to the same full name. -/
theorem C2_counterexample_shared_full_name :
    projShared.Networks.lookup "front" = some ⟨"shared", ⟨true⟩⟩ ∧
    (projShared.Networks.map Prod.fst).Nodup ∧
    Event.NetworkExists "shared" (Answer.ok true) ∈
      (Down envAllPresent projShared ⟨false⟩ []).2 ∧
    Event.runNerdctlCmd ["network", "rm", "shared"] none ∈
      (Down envAllPresent projShared ⟨false⟩ []).2 := by
  decide

/-- C2, amended: the `downNetwork` / `downVolume` call for a definition whose
external flag is true returns success and adds nothing to the trace (no probe,
no command, no log line); and every `NetworkExists` probe and `network rm`
command (resp. `VolumeExists` probe and `volume rm -f` command) that `Down`
issues is addressed to the full name of a network (resp. volume) definition of
the project whose external flag is false. -/
theorem C2_external_definitions_are_skipped (env : Env) (p : Project) (o : DownOptions)
    (t : Trace) :
    (∀ s net, p.Networks.lookup s = some net → net.External.External = true →
      downNetwork env p s t = (none, t)) ∧
    (∀ s vol, p.Volumes.lookup s = some vol → vol.External.External = true →
      downVolume env p s t = (none, t)) ∧
    ∃ es, (Down env p o t).2 = t ++ es ∧ ∀ e ∈ es,
      (∀ n, ((∃ r, e = Event.NetworkExists n r) ∨
          (∃ r, e = Event.runNerdctlCmd ["network", "rm", n] r)) →
        ∃ s net, p.Networks.lookup s = some net ∧ net.Name = n ∧
          net.External.External = false) ∧
      (∀ n, ((∃ r, e = Event.VolumeExists n r) ∨
          (∃ r, e = Event.runNerdctlCmd ["volume", "rm", "-f", n] r)) →
        ∃ s vol, p.Volumes.lookup s = some vol ∧ vol.Name = n ∧
          vol.External.External = false) := by
  refine ⟨?_, ?_, ?_⟩
  · intro s net hl hx
    simp [downNetwork, hl, hx]
  · intro s vol hl hx
    simp [downVolume, hl, hx]
  · obtain ⟨es, hes, hQ⟩ := Down_pieces env p o
      (fun _ es => ∀ e ∈ es,
        (∀ n, ((∃ r, e = Event.NetworkExists n r) ∨
            (∃ r, e = Event.runNerdctlCmd ["network", "rm", n] r)) →
          ∃ s net, p.Networks.lookup s = some net ∧ net.Name = n ∧
            net.External.External = false) ∧
        (∀ n, ((∃ r, e = Event.VolumeExists n r) ∨
            (∃ r, e = Event.runNerdctlCmd ["volume", "rm", "-f", n] r)) →
          ∃ s vol, p.Volumes.lookup s = some vol ∧ vol.Name = n ∧
            vol.External.External = false))
      (by simp)
      (by
        intro a r b ha hb e he
        rcases List.mem_append.1 he with he | he
        · exact ha e he
        · exact hb e he)
      (by simp) (by simp) (by simp)
      (by
        intro c r e he
        rcases List.mem_append.1 he with he | he
        · simp only [List.mem_cons, List.mem_singleton, List.not_mem_nil, or_false] at he
          rcases he with rfl | rfl
          · simp
          · simp [containerArgs_ne_network, containerArgs_ne_volume]
        · obtain ⟨msg, _, rfl⟩ := mem_warnOf he
          simp)
      (by
        intro s net msg hl hx e he
        simp only [List.mem_singleton] at he
        subst he
        refine ⟨fun n hn => ⟨s, net, hl, ?_, hx⟩, by simp⟩
        rcases hn with ⟨_, hn⟩ | ⟨_, hn⟩ <;> first | (cases hn; rfl) | cases hn)
      (by
        intro s net hl hx e he
        simp only [List.mem_singleton] at he
        subst he
        refine ⟨fun n hn => ⟨s, net, hl, ?_, hx⟩, by simp⟩
        rcases hn with ⟨_, hn⟩ | ⟨_, hn⟩ <;> first | (cases hn; rfl) | cases hn)
      (by
        intro s net r hl hx e he
        rcases List.mem_append.1 he with he | he
        · simp only [List.mem_cons, List.mem_singleton, List.not_mem_nil, or_false] at he
          rcases he with rfl | rfl | rfl
          · refine ⟨fun n hn => ⟨s, net, hl, ?_, hx⟩, by simp⟩
            rcases hn with ⟨_, hn⟩ | ⟨_, hn⟩ <;> first | (cases hn; rfl) | cases hn
          · simp
          · refine ⟨fun n hn => ⟨s, net, hl, ?_, hx⟩, by simp⟩
            rcases hn with ⟨_, hn⟩ | ⟨_, hn⟩ <;> first | (cases hn; rfl) | cases hn
        · obtain ⟨msg, _, rfl⟩ := mem_warnOf he
          simp)
      (by
        intro _ s vol msg hl hx e he
        simp only [List.mem_singleton] at he
        subst he
        refine ⟨by simp, fun n hn => ⟨s, vol, hl, ?_, hx⟩⟩
        rcases hn with ⟨_, hn⟩ | ⟨_, hn⟩ <;> first | (cases hn; rfl) | cases hn)
      (by
        intro _ s vol hl hx e he
        simp only [List.mem_singleton] at he
        subst he
        refine ⟨by simp, fun n hn => ⟨s, vol, hl, ?_, hx⟩⟩
        rcases hn with ⟨_, hn⟩ | ⟨_, hn⟩ <;> first | (cases hn; rfl) | cases hn)
      (by
        intro _ s vol r hl hx e he
        rcases List.mem_append.1 he with he | he
        · simp only [List.mem_cons, List.mem_singleton, List.not_mem_nil, or_false] at he
          rcases he with rfl | rfl | rfl
          · refine ⟨by simp, fun n hn => ⟨s, vol, hl, ?_, hx⟩⟩
            rcases hn with ⟨_, hn⟩ | ⟨_, hn⟩ <;> first | (cases hn; rfl) | cases hn
          · simp
          · refine ⟨by simp, fun n hn => ⟨s, vol, hl, ?_, hx⟩⟩
            rcases hn with ⟨_, hn⟩ | ⟨_, hn⟩ <;> first | (cases hn; rfl) | cases hn
        · obtain ⟨msg, _, rfl⟩ := mem_warnOf he
          simp)
      t
    exact ⟨es, hes, hQ⟩

/-- C2, amended, at `projShared`: the call for the external definition `front`
returns nil and adds nothing to the trace. -/
theorem C2_witness_external_network :
    projShared.Networks.lookup "front" = some ⟨"shared", ⟨true⟩⟩ ∧
    downNetwork envAllPresent projShared "front" [] = (none, []) :=
  ⟨by decide,
   (C2_external_definitions_are_skipped envAllPresent projShared ⟨true⟩ []).1
     "front" ⟨"shared", ⟨true⟩⟩ (by decide) rfl⟩

/-- C3: when the expansion of `svc` succeeds with the containers
`ps.Containers`, `downService` returns nil and the commands it issues are, in
list order, `rm -f -v <name>` for every container when `removeAnonVolumes` is
true and `rm -f <name>` when it is false, and nothing else.  And in every run of
`Down`: when `Down` returns nil it has expanded every service of the project
once, in order; and every expansion it records, of a service `svc'` at the
trace `t0 ++ pre`, is followed by exactly the events that
`downService svc' downOptions.RemoveVolumes` adds at that trace, whose commands
are the removals of the returned containers, with `-v` exactly when
`downOptions.RemoveVolumes` is true. -/
theorem C3_downService_one_command_per_instance (env : Env) (p : Project)
    (svc : ServiceConfig) (removeAnonVolumes : Bool)
    (t : Trace) (ps : Service) (h : env.Parse (calls t) p svc = Answer.ok ps) :
    (downService env p svc removeAnonVolumes t).1 = none ∧
    (∃ es, (downService env p svc removeAnonVolumes t).2 = t ++ es ∧
      commands es = ps.Containers.map (fun c =>
        if removeAnonVolumes = true then ["rm", "-f", "-v", c.Name]
        else ["rm", "-f", c.Name])) ∧
    ∀ (o : DownOptions) (t0 es : Trace), (Down env p o t0).2 = t0 ++ es →
      ((Down env p o t0).1 = none → (parses es).map Prod.fst = p.Services) ∧
      ∀ pre svc' res post, es = pre ++ Event.Parse svc' res :: post →
        ∃ cs post', post = cs ++ post' ∧
          (downService env p svc' o.RemoveVolumes (t0 ++ pre)).2 =
            t0 ++ pre ++ Event.Parse svc' res :: cs ∧
          commands cs = (match res with
            | Answer.ok ps' => ps'.Containers.map (fun c =>
                if o.RemoveVolumes = true then ["rm", "-f", "-v", c.Name]
                else ["rm", "-f", c.Name])
            | Answer.error _ => []) := by
  rcases downService_cases env p svc removeAnonVolumes t with ⟨msg, hm, _⟩ | ⟨ps', hp, hd⟩
  · rw [h] at hm; cases hm
  · rw [h] at hp
    cases hp
    refine ⟨by rw [hd], ?_, ?_⟩
    · obtain ⟨es, hes, hc⟩ := removeContainers_commands env removeAnonVolumes ps.Containers
        (t ++ [Event.Parse svc (Answer.ok ps)])
      refine ⟨[Event.Parse svc (Answer.ok ps)] ++ es, ?_, ?_⟩
      · rw [hd]; simp only [hes, List.append_assoc]
      · rw [commands_append, hc]
        simp [commands, Event.command, containerArgs]
    · intro o t0 es hes
      obtain ⟨es1, h1, _, hv, _⟩ := Down_blocks env p o t0
      obtain ⟨es2, h2, hs⟩ := Down_serviceCalls env p o t0
      have e1 : es1 = es := List.append_cancel_left (h1.symm.trans hes)
      have e2 : es2 = es := List.append_cancel_left (h2.symm.trans hes)
      subst e1
      subst e2
      exact ⟨fun hr => (hv hr).1, hs⟩

/-- C3 at a service with three instances.  `downService` without `-v` issues
three commands, in list order, the second of which fails in this runtime; and
`Down` of `projDemo` with `RemoveVolumes` expands the one service `web` and
follows the expansion by the three removals with `-v`. -/
theorem C3_witness_three_instances :
    envThree.Parse (calls []) projDemo ⟨"web"⟩ =
      Answer.ok ⟨[⟨"P_web_1"⟩, ⟨"P_web_2"⟩, ⟨"P_web_3"⟩]⟩ ∧
    (downService envThree projDemo ⟨"web"⟩ false []).1 = none ∧
    (∃ es, (downService envThree projDemo ⟨"web"⟩ false []).2 = [] ++ es ∧
      commands es =
        [["rm", "-f", "P_web_1"], ["rm", "-f", "P_web_2"], ["rm", "-f", "P_web_3"]]) ∧
    Down envThree projDemo ⟨true⟩ [] = (none, [] ++ threeRun) ∧
    (parses threeRun).map Prod.fst = [⟨"web"⟩] ∧
    (∃ cs post', threeRun.tail = cs ++ post' ∧
      (downService envThree projDemo ⟨"web"⟩ true ([] ++ [])).2 =
        [] ++ [] ++ Event.Parse ⟨"web"⟩
          (Answer.ok ⟨[⟨"P_web_1"⟩, ⟨"P_web_2"⟩, ⟨"P_web_3"⟩]⟩) :: cs ∧
      commands cs =
        [["rm", "-f", "-v", "P_web_1"], ["rm", "-f", "-v", "P_web_2"],
         ["rm", "-f", "-v", "P_web_3"]]) :=
  ⟨rfl,
   (C3_downService_one_command_per_instance envThree projDemo ⟨"web"⟩ false []
      ⟨[⟨"P_web_1"⟩, ⟨"P_web_2"⟩, ⟨"P_web_3"⟩]⟩ rfl).1,
   (C3_downService_one_command_per_instance envThree projDemo ⟨"web"⟩ false []
      ⟨[⟨"P_web_1"⟩, ⟨"P_web_2"⟩, ⟨"P_web_3"⟩]⟩ rfl).2.1,
   by decide,
   ((C3_downService_one_command_per_instance envThree projDemo ⟨"web"⟩ false []
      ⟨[⟨"P_web_1"⟩, ⟨"P_web_2"⟩, ⟨"P_web_3"⟩]⟩ rfl).2.2 ⟨true⟩ [] threeRun
      (by decide)).1 (by decide),
   ((C3_downService_one_command_per_instance envThree projDemo ⟨"web"⟩ false []
      ⟨[⟨"P_web_1"⟩, ⟨"P_web_2"⟩, ⟨"P_web_3"⟩]⟩ rfl).2.2 ⟨true⟩ [] threeRun
      (by decide)).2 [] ⟨"web"⟩
      (Answer.ok ⟨[⟨"P_web_1"⟩, ⟨"P_web_2"⟩, ⟨"P_web_3"⟩]⟩) threeRun.tail rfl⟩

/-- C4: when `RemoveVolumes` is false, `Down` adds no `VolumeExists` probe and no
command that starts with `volume rm` to the trace, whatever the volume
definitions of the project and whatever the runtime would answer. -/
theorem C4_no_volume_phase_without_RemoveVolumes (env : Env) (p : Project)
    (o : DownOptions) (t : Trace) (h : o.RemoveVolumes = false) :
    ∃ es, (Down env p o t).2 = t ++ es ∧
      ∀ e ∈ es, (∀ n r, e ≠ Event.VolumeExists n r) ∧
        (∀ args r, e = Event.runNerdctlCmd args r → args.take 2 ≠ ["volume", "rm"]) := by
  obtain ⟨es, hes, hQ⟩ := Down_pieces env p o
    (fun _ es => ∀ e ∈ es, (∀ n r, e ≠ Event.VolumeExists n r) ∧
        (∀ args r, e = Event.runNerdctlCmd args r → args.take 2 ≠ ["volume", "rm"]))
    (by simp)
    (by
      intro a r b ha hb e he
      rcases List.mem_append.1 he with he | he
      · exact ha e he
      · exact hb e he)
    (by simp) (by simp) (by simp)
    (by
      intro c r e he
      rcases List.mem_append.1 he with he | he
      · simp at he
        rcases he with rfl | rfl
        · simp
        · simp [containerArgs_take]
      · obtain ⟨msg, _, rfl⟩ := mem_warnOf he
        simp)
    (by simp) (by simp)
    (by
      intro s net r _ _ e he
      rcases List.mem_append.1 he with he | he
      · simp at he
        rcases he with rfl | rfl | rfl <;> simp
      · obtain ⟨msg, _, rfl⟩ := mem_warnOf he
        simp)
    (by simp [h]) (by simp [h]) (by simp [h]) t
  exact ⟨es, hes, hQ⟩

/-- C4 at `projDemo`, whose volume `data` is owned, in a runtime where every
volume exists: with `RemoveVolumes = false` the volume is neither probed nor
removed. -/
theorem C4_witness_projDemo :
    (DownOptions.mk false).RemoveVolumes = false ∧
    ∃ es, (Down envAllPresent projDemo ⟨false⟩ []).2 = [] ++ es ∧
      ∀ e ∈ es, (∀ n r, e ≠ Event.VolumeExists n r) ∧
        (∀ args r, e = Event.runNerdctlCmd args r → args.take 2 ≠ ["volume", "rm"]) :=
  ⟨rfl, C4_no_volume_phase_without_RemoveVolumes envAllPresent projDemo ⟨false⟩ [] rfl⟩

/-- C5: among the collaborator calls of a run of `Down`, every `network rm n`
command comes right after a `NetworkExists n` probe that answered `(true, nil)`,
and every `volume rm -f n` command right after a `VolumeExists n` probe that
answered `(true, nil)`; and when the probe made for an owned definition answers
`(false, nil)`, `downNetwork` / `downVolume` adds only that probe to the trace
and returns nil, so that the loop goes on to the next resource. -/
theorem C5_removal_only_right_after_successful_probe (env : Env) (p : Project)
    (o : DownOptions) (t : Trace) :
    (∃ es, (Down env p o t).2 = t ++ es ∧
      ∀ pre e post, interactions es = pre ++ e :: post →
        (∀ n r, e = Event.runNerdctlCmd ["network", "rm", n] r →
          ∃ pre', pre = pre' ++ [Event.NetworkExists n (Answer.ok true)]) ∧
        (∀ n r, e = Event.runNerdctlCmd ["volume", "rm", "-f", n] r →
          ∃ pre', pre = pre' ++ [Event.VolumeExists n (Answer.ok true)])) ∧
    (∀ s net, p.Networks.lookup s = some net → net.External.External = false →
      env.NetworkExists (calls t) net.Name = Answer.ok false →
      downNetwork env p s t = (none, t ++ [Event.NetworkExists net.Name (Answer.ok false)])) ∧
    (∀ s vol, p.Volumes.lookup s = some vol → vol.External.External = false →
      env.VolumeExists (calls t) vol.Name = Answer.ok false →
      downVolume env p s t = (none, t ++ [Event.VolumeExists vol.Name (Answer.ok false)])) := by
  refine ⟨?_, ?_, ?_⟩
  · obtain ⟨es, hes, hQ⟩ := Down_pieces env p o (fun _ es => Guarded (interactions es))
      (by simpa using Guarded_nil)
      (by intro a r b ha hb; simpa using Guarded_append ha hb)
      (by intro f u; simpa [interactions, Event.toCall] using Guarded_nil)
      (by
        intro svc msg
        simpa [interactions, Event.toCall] using Guarded_singleton _ (by simp) (by simp))
      (by
        intro svc ps
        simpa [interactions, Event.toCall] using Guarded_singleton _ (by simp) (by simp))
      (by
        intro c r
        rw [interactions_append, interactions_warnOf, List.append_nil]
        exact Guarded_singleton
          (Event.runNerdctlCmd (containerArgs o.RemoveVolumes c) r)
          (by simp [containerArgs_ne_network]) (by simp [containerArgs_ne_volume]))
      (by
        intro s net msg _ _
        simpa [interactions, Event.toCall] using Guarded_singleton _ (by simp) (by simp))
      (by
        intro s net _ _
        simpa [interactions, Event.toCall] using Guarded_singleton _ (by simp) (by simp))
      (by
        intro s net r _ _
        rw [interactions_append, interactions_warnOf, List.append_nil]
        exact Guarded_pair
          (Event.NetworkExists net.Name (Answer.ok true))
          (Event.runNerdctlCmd ["network", "rm", net.Name] r)
          (by simp) (by simp) (by simp) (by simp))
      (by
        intro _ s vol msg _ _
        simpa [interactions, Event.toCall] using Guarded_singleton _ (by simp) (by simp))
      (by
        intro _ s vol _ _
        simpa [interactions, Event.toCall] using Guarded_singleton _ (by simp) (by simp))
      (by
        intro _ s vol r _ _
        rw [interactions_append, interactions_warnOf, List.append_nil]
        exact Guarded_pair
          (Event.VolumeExists vol.Name (Answer.ok true))
          (Event.runNerdctlCmd ["volume", "rm", "-f", vol.Name] r)
          (by simp) (by simp) (by simp) (by simp))
      t
    exact ⟨es, hes, hQ⟩
  · intro s net hl hx hp
    simp [downNetwork, hl, hx, hp]
  · intro s vol hl hx hp
    simp [downVolume, hl, hx, hp]

/-- C5 at `projDemo` in a runtime where nothing exists: the probe of the owned
network `default` answers false, and `downNetwork` records the probe, issues no
command and returns nil. -/
theorem C5_witness_absent_network :
    downNetwork envAbsent projDemo "default" [] =
      (none, [] ++ [Event.NetworkExists "P_default" (Answer.ok false)]) :=
  (C5_removal_only_right_after_successful_probe envAbsent projDemo ⟨true⟩ []).2.1
    "default" ⟨"P_default", ⟨false⟩⟩ rfl rfl rfl

/-- C6 as first stated fails: in `envRuntime` a first `Down` of `projDemo`
succeeds and removes the container, the network and the volume; in the second
`Down`, made right after it, both existence probes answer false, and it still
issues the container removal `rm -f -v P_web_1` (which fails and is warned
about), since containers are removed without being probed. -/
theorem C6_counterexample_containers_removed_again :
    Down envRuntime projDemo ⟨true⟩ [] = (none, firstRun) ∧
    Down envRuntime projDemo ⟨true⟩ firstRun = (none, firstRun ++ secondRun) ∧
    networkProbes secondRun = [("P_default", Answer.ok false)] ∧
    volumeProbes secondRun = [("P_data", Answer.ok false)] ∧
    commands secondRun = [["rm", "-f", "-v", "P_web_1"]] ∧
    commands secondRun ≠ [] := by
  decide

/-- C6, amended: a run of `Down` in which every existence probe answered false
issues no network removal and no volume removal; the commands it issues are
exactly the container removals of the instances that its service expansions
returned (so none at all when the expansions return no instance). -/
theorem C6_no_network_or_volume_removal_when_probes_answer_false (env : Env)
    (p : Project) (o : DownOptions) (t es : Trace)
    (hes : (Down env p o t).2 = t ++ es)
    (hgone : ∀ nr ∈ networkProbes es ++ volumeProbes es, nr.2 = Answer.ok false) :
    commands es = containerBlock o.RemoveVolumes es ∧
    networkBlock es = [] ∧ volumeBlock es = [] := by
  obtain ⟨es', hes', hc, _, _⟩ := Down_blocks env p o t
  have : es' = es := List.append_cancel_left (hes'.symm.trans hes)
  subst this
  have hn : networkBlock es' = [] := by
    unfold networkBlock
    rw [List.filterMap_eq_nil_iff]
    intro nr hnr
    simp [hgone nr (List.mem_append_left _ hnr)]
  have hv : volumeBlock es' = [] := by
    unfold volumeBlock
    rw [List.filterMap_eq_nil_iff]
    intro nr hnr
    simp [hgone nr (List.mem_append_right _ hnr)]
  refine ⟨?_, hn, hv⟩
  rw [hc, hn, hv, List.append_nil, List.append_nil]

/-- C6, amended, at the second `Down` of `projDemo` in `envRuntime`: both probes
answer false, and the only command is the removal of the container. -/
theorem C6_witness_second_run :
    (Down envRuntime projDemo ⟨true⟩ firstRun).2 = firstRun ++ secondRun ∧
    (∀ nr ∈ networkProbes secondRun ++ volumeProbes secondRun, nr.2 = Answer.ok false) ∧
    commands secondRun = [["rm", "-f", "-v", "P_web_1"]] ∧
    networkBlock secondRun = [] ∧ volumeBlock secondRun = [] :=
  ⟨by decide, by decide,
   (C6_no_network_or_volume_removal_when_probes_answer_false envRuntime projDemo ⟨true⟩
      firstRun secondRun (by decide) (by decide)).1.trans
     (by decide),
   (C6_no_network_or_volume_removal_when_probes_answer_false envRuntime projDemo ⟨true⟩
      firstRun secondRun (by decide) (by decide)).2⟩

/-- C7: `downNetwork` (resp. `downVolume`) on a short name that the network
(resp. volume) mapping does not hold returns the error
`invalid network name` (resp. `invalid volume name`) and leaves the trace as it
was; and when, in a run of `Down`, the service loop and the `downNetwork` calls
for the short names `before` have succeeded and the `downNetwork` call for the
next short name `s` returns an error, `Down` returns that error with the trace
of that call, in which nothing is a volume probe or a volume removal. -/
theorem C7_missing_reference_is_a_hard_error (env : Env) (p : Project) (o : DownOptions)
    (t : Trace) :
    (∀ s, p.Networks.lookup s = none →
      downNetwork env p s t = (some (Error.invalidNetworkName s), t)) ∧
    (∀ s, p.Volumes.lookup s = none →
      downVolume env p s t = (some (Error.invalidVolumeName s), t)) ∧
    (∀ before s after t1 t2 t3 err,
      p.Networks.map Prod.fst = before ++ s :: after →
      forRange (fun svc => downService env p svc o.RemoveVolumes) p.Services
        (warnUnknown env p t) = (none, t1) →
      forRange (fun shortName => downNetwork env p shortName) before t1 = (none, t2) →
      downNetwork env p s t2 = (some err, t3) →
      Down env p o t = (some err, t3) ∧
      ∃ es, t3 = t ++ es ∧ ∀ e ∈ es, (∀ n r, e ≠ Event.VolumeExists n r) ∧
        (∀ args r, e = Event.runNerdctlCmd args r → args.take 2 ≠ ["volume", "rm"])) := by
  refine ⟨?_, ?_, ?_⟩
  · intro s hl
    simp [downNetwork, hl]
  · intro s hl
    simp [downVolume, hl]
  · intro before s after t1 t2 t3 err hkeys h1 h2 h3
    have hloop := forRange_stops (fun shortName => downNetwork env p shortName)
      before s after err t1 t2 t3 h2 h3
    refine ⟨?_, ?_⟩
    · simp [Down, h1, hkeys, hloop]
    · have h0 : ∃ es0, warnUnknown env p t = t ++ es0 ∧ NoVolume es0 := by
        rcases warnUnknown_cases env p t with h | h
        · exact ⟨[], by simp [h], NoVolume_nil⟩
        · refine ⟨_, h, ?_⟩
          intro e he; simp at he; subst he; simp
      obtain ⟨es0, he0, hn0⟩ := h0
      obtain ⟨es1, he1, hn1⟩ := forRange_rule
        (fun svc => downService env p svc o.RemoveVolumes) (fun _ es => NoVolume es)
        NoVolume_nil (fun a r b ha hb => NoVolume_append ha hb) p.Services
        (fun svc _ u => downService_noVolume env p svc o.RemoveVolumes u)
        (warnUnknown env p t)
      obtain ⟨es2, he2, hn2⟩ := forRange_rule
        (fun shortName => downNetwork env p shortName) (fun _ es => NoVolume es)
        NoVolume_nil (fun a r b ha hb => NoVolume_append ha hb) before
        (fun s _ u => downNetwork_noVolume env p s u) t1
      obtain ⟨es3, he3, hn3⟩ := downNetwork_noVolume env p s t2
      rw [h1] at he1
      rw [h2] at he2
      rw [h3] at he3
      simp only at he1 he2 he3
      refine ⟨es0 ++ es1 ++ es2 ++ es3, ?_,
        NoVolume_append (NoVolume_append (NoVolume_append hn0 hn1) hn2) hn3⟩
      rw [he3, he2, he1, he0]
      simp

/-- C7 at `projDemo`: the short name `missing` is in no mapping and `downNetwork`
returns `invalid network name "missing"` with the trace unchanged; and in a
runtime whose probes fail, the `downNetwork` call for `default` returns the
probe error, `Down` returns it, and the run ends with that probe. -/
theorem C7_witness_missing_name_and_failed_probe :
    downNetwork envDemo projDemo "missing" [] =
      (some (Error.invalidNetworkName "missing"), []) ∧
    Down envUnreachable projDemo ⟨true⟩ [] =
      (some (Error.collaborator "runtime unreachable"),
        [Event.Parse ⟨"web"⟩ (Answer.ok ⟨[⟨"P_web_1"⟩]⟩),
         Event.Infof "Removing container %s" "P_web_1",
         Event.runNerdctlCmd ["rm", "-f", "-v", "P_web_1"] none,
         Event.NetworkExists "P_default" (Answer.error "runtime unreachable")]) :=
  ⟨(C7_missing_reference_is_a_hard_error envDemo projDemo ⟨true⟩ []).1 "missing" (by decide),
   ((C7_missing_reference_is_a_hard_error envUnreachable projDemo ⟨true⟩ []).2.2 [] "default" []
      [Event.Parse ⟨"web"⟩ (Answer.ok ⟨[⟨"P_web_1"⟩]⟩),
       Event.Infof "Removing container %s" "P_web_1",
       Event.runNerdctlCmd ["rm", "-f", "-v", "P_web_1"] none]
      [Event.Parse ⟨"web"⟩ (Answer.ok ⟨[⟨"P_web_1"⟩]⟩),
       Event.Infof "Removing container %s" "P_web_1",
       Event.runNerdctlCmd ["rm", "-f", "-v", "P_web_1"] none]
      [Event.Parse ⟨"web"⟩ (Answer.ok ⟨[⟨"P_web_1"⟩]⟩),
       Event.Infof "Removing container %s" "P_web_1",
       Event.runNerdctlCmd ["rm", "-f", "-v", "P_web_1"] none,
       Event.NetworkExists "P_default" (Answer.error "runtime unreachable")]
      (Error.collaborator "runtime unreachable")
      (by decide) (by decide) (by decide) (by decide)).1⟩

/-- C8: `Down` returns an error exactly when one of the service expansions or
existence probes it made failed.  In that case the failed call is the last
event of the run (nothing is probed, removed or logged after it, so no removal
command is issued for the resource whose probe failed), no earlier expansion or
probe failed, and the error returned is the error of that call.  A failed
removal command is not a failure in this sense. -/
theorem C8_Down_fails_exactly_on_failed_expansion_or_probe (env : Env) (p : Project)
    (o : DownOptions) (t : Trace) :
    ∃ es, (Down env p o t).2 = t ++ es ∧
      ((Down env p o t).1 = none ↔ ∀ e ∈ es, e.failure = none) ∧
      (∀ err, (Down env p o t).1 = some err →
        ∃ pre e msg, es = pre ++ [e] ∧ e.failure = some msg ∧
          err = Error.collaborator msg ∧ ∀ e' ∈ pre, e'.failure = none) := by
  obtain ⟨es, hes, hQ1, hQ2⟩ := Down_pieces env p o
    (fun r es => (r = none → ∀ e ∈ es, e.failure = none) ∧
      (∀ err, r = some err →
        ∃ pre e msg, es = pre ++ [e] ∧ e.failure = some msg ∧
          err = Error.collaborator msg ∧ ∀ e' ∈ pre, e'.failure = none))
    (by simp)
    (by
      rintro a r b ⟨ha, _⟩ ⟨hb1, hb2⟩
      refine ⟨?_, ?_⟩
      · intro hr e he
        rcases List.mem_append.1 he with he | he
        · exact ha rfl e he
        · exact hb1 hr e he
      · intro err hr
        obtain ⟨pre, e, msg, hb, hf, herr, hpre⟩ := hb2 err hr
        refine ⟨a ++ pre, e, msg, by simp [hb], hf, herr, ?_⟩
        intro e' he'
        rcases List.mem_append.1 he' with he' | he'
        · exact ha rfl e' he'
        · exact hpre e' he')
    (by simp [Event.failure])
    (by
      intro svc msg
      refine ⟨by simp, ?_⟩
      intro err herr
      exact ⟨[], _, msg, rfl, rfl, by simpa using herr.symm, by simp⟩)
    (by simp [Event.failure])
    (by
      intro c r
      refine ⟨?_, by simp⟩
      intro _ e he
      rcases List.mem_append.1 he with he | he
      · simp at he
        rcases he with rfl | rfl <;> rfl
      · exact failure_warnOf he)
    (by
      intro s net msg _ _
      refine ⟨by simp, ?_⟩
      intro err herr
      exact ⟨[], _, msg, rfl, rfl, by simpa using herr.symm, by simp⟩)
    (by simp [Event.failure])
    (by
      intro s net r _ _
      refine ⟨?_, by simp⟩
      intro _ e he
      rcases List.mem_append.1 he with he | he
      · simp at he
        rcases he with rfl | rfl | rfl <;> rfl
      · exact failure_warnOf he)
    (by
      intro _ s vol msg _ _
      refine ⟨by simp, ?_⟩
      intro err herr
      exact ⟨[], _, msg, rfl, rfl, by simpa using herr.symm, by simp⟩)
    (by simp [Event.failure])
    (by
      intro _ s vol r _ _
      refine ⟨?_, by simp⟩
      intro _ e he
      rcases List.mem_append.1 he with he | he
      · simp at he
        rcases he with rfl | rfl | rfl <;> rfl
      · exact failure_warnOf he)
    t
  refine ⟨es, hes, ⟨hQ1, ?_⟩, hQ2⟩
  intro hall
  cases hr : (Down env p o t).1 with
  | none => rfl
  | some err =>
    obtain ⟨pre, e, msg, hpe, hf, _, _⟩ := hQ2 err hr
    have := hall e (by simp [hpe])
    rw [hf] at this
    cases this

/-- C8 at `projDemo` in a runtime whose probes fail: `Down` returns the error of
the network probe, which is the last event of the run. -/
theorem C8_witness_failed_probe :
    (Down envUnreachable projDemo ⟨true⟩ []).1 =
      some (Error.collaborator "runtime unreachable") ∧
    ∃ es, (Down envUnreachable projDemo ⟨true⟩ []).2 = [] ++ es ∧
      ((Down envUnreachable projDemo ⟨true⟩ []).1 = none ↔ ∀ e ∈ es, e.failure = none) ∧
      (∀ err, (Down envUnreachable projDemo ⟨true⟩ []).1 = some err →
        ∃ pre e msg, es = pre ++ [e] ∧ e.failure = some msg ∧
          err = Error.collaborator msg ∧ ∀ e' ∈ pre, e'.failure = none) :=
  ⟨by decide,
   C8_Down_fails_exactly_on_failed_expansion_or_probe envUnreachable projDemo ⟨true⟩ []⟩

/-- C9: when no service expansion and no probe of a run of `Down` failed, `Down`
returns nil; the run expands every service of the project once, in order,
probes the full name of every network definition that is not external once, in
range order, and, only if `RemoveVolumes` is set, the full name of every volume
definition that is not external; and the commands it issues are, in this order,
block 1: `rm -f [-v] <container name>` for every instance of every expansion,
block 2: `network rm <full name>` for every network probe that answered true,
block 3: `volume rm -f <full name>` for every volume probe that answered true.
(`ownedNetworks` and `ownedVolumes` follow the lookups of the code; when the
short names are distinct, as the keys of a Go map are, they are the full names
of the definitions whose external flag is false.) -/
theorem C9_commands_are_three_blocks_in_order (env : Env) (p : Project) (o : DownOptions)
    (t es : Trace)
    (hes : (Down env p o t).2 = t ++ es) (hok : ∀ e ∈ es, e.failure = none) :
    (Down env p o t).1 = none ∧
    (parses es).map Prod.fst = p.Services ∧
    (networkProbes es).map Prod.fst = ownedNetworks p ∧
    (volumeProbes es).map Prod.fst = (if o.RemoveVolumes then ownedVolumes p else []) ∧
    commands es = containerBlock o.RemoveVolumes es ++ networkBlock es ++ volumeBlock es ∧
    ((p.Networks.map Prod.fst).Nodup → ownedNetworks p =
      (p.Networks.filter (fun kv => !kv.2.External.External)).map (fun kv => kv.2.Name)) ∧
    ((p.Volumes.map Prod.fst).Nodup → ownedVolumes p =
      (p.Volumes.filter (fun kv => !kv.2.External.External)).map (fun kv => kv.2.Name)) := by
  obtain ⟨es', hes', hc, hv, hf⟩ := Down_blocks env p o t
  have : es' = es := List.append_cancel_left (hes'.symm.trans hes)
  subst this
  have hr : (Down env p o t).1 = none := by
    cases hr : (Down env p o t).1 with
    | none => rfl
    | some err =>
      obtain ⟨e, he, hfe⟩ := hf err hr
      exact absurd (hok e he) hfe
  obtain ⟨h1, h2, h3⟩ := hv hr
  exact ⟨hr, h1, h2, h3, hc, ownedNetworks_of_nodup p, ownedVolumes_of_nodup p⟩

/-- C9 at the project `P` with service `web` (two instances), owned network
`default` (exists) and owned volume `data` (absent), with `RemoveVolumes`: two
container removals, one network removal, no volume removal, and success. -/
theorem C9_witness_end_to_end :
    (Down envDemo projDemo ⟨true⟩ []).2 = [] ++ demoRun ∧
    (∀ e ∈ demoRun, e.failure = none) ∧
    (Down envDemo projDemo ⟨true⟩ []).1 = none ∧
    commands demoRun =
      [["rm", "-f", "-v", "P_web_1"], ["rm", "-f", "-v", "P_web_2"],
       ["network", "rm", "P_default"]] ∧
    containerBlock true demoRun =
      [["rm", "-f", "-v", "P_web_1"], ["rm", "-f", "-v", "P_web_2"]] ∧
    networkBlock demoRun = [["network", "rm", "P_default"]] ∧
    volumeBlock demoRun = [] :=
  ⟨by decide, by decide,
   (C9_commands_are_three_blocks_in_order envDemo projDemo ⟨true⟩ [] demoRun
      (by decide) (by decide)).1,
   (C9_commands_are_three_blocks_in_order envDemo projDemo ⟨true⟩ [] demoRun
      (by decide) (by decide)).2.2.2.2.1.trans
     (by decide),
   by decide, by decide, by decide⟩

/-- C10: every key of the network (resp. volume) mapping is found by the lookup
of `downNetwork` (resp. `downVolume`), and `Down` never returns the
`invalid network name` or the `invalid volume name` error. -/
theorem C10_Down_never_returns_invalid_name (env : Env) (p : Project) (o : DownOptions)
    (t : Trace) :
    (∀ s ∈ p.Networks.map Prod.fst, p.Networks.lookup s ≠ none) ∧
    (∀ s ∈ p.Volumes.map Prod.fst, p.Volumes.lookup s ≠ none) ∧
    ∀ s, (Down env p o t).1 ≠ some (Error.invalidNetworkName s) ∧
      (Down env p o t).1 ≠ some (Error.invalidVolumeName s) := by
  refine ⟨?_, ?_, ?_⟩
  · intro s hs h
    obtain ⟨v, hv⟩ := lookup_of_mem_keys _ s hs
    rw [h] at hv; cases hv
  · intro s hs h
    obtain ⟨v, hv⟩ := lookup_of_mem_keys _ s hs
    rw [h] at hv; cases hv
  · obtain ⟨es, _, hQ⟩ := Down_pieces env p o
      (fun r _ => ∀ s, r ≠ some (Error.invalidNetworkName s) ∧
        r ≠ some (Error.invalidVolumeName s))
      (by simp) (by intro a r b _ h; exact h) (by simp) (by simp) (by simp) (by simp)
      (by simp) (by simp) (by simp) (by simp) (by simp) (by simp) t
    exact hQ

/-- C10 at `projShared`: the short names that `range` yields are found. -/
theorem C10_witness_keys_are_found :
    "front" ∈ projShared.Networks.map Prod.fst ∧
    projShared.Networks.lookup "front" ≠ none ∧
    (Down envUnreachable projShared ⟨true⟩ []).1 ≠ some (Error.invalidNetworkName "front") :=
  ⟨by decide,
   (C10_Down_never_returns_invalid_name envUnreachable projShared ⟨true⟩ []).1
     "front" (by decide),
   ((C10_Down_never_returns_invalid_name envUnreachable projShared ⟨true⟩ []).2.2
     "front").1⟩

end Composer
